import Mathlib

/-!
# Verification of the pyhosting / synopsys event-messaging core

This file gives a shallow embedding, in Lean 4, of the subject-matching,
subject-templating, event-spec validation, in-memory event-bus delivery and
Play (supervisor) processing loops of the pyhosting repository, and proves
or refutes the specified properties about them.

Subjects and tokens are modelled as `List Char` (`Str`), mirroring Python
strings; `str.split(sep)` and `sep.join(tokens)` for a one-character
separator are modelled by `pySplit` / `pyJoin` with Python semantics.
Fallible Python code (raising `ValueError`, `KeyError`, `IndexError`,
`asyncio.TimeoutError`) is modelled with `Except PyErr`.
-/

set_option autoImplicit false

namespace Pyhosting

/-- Python strings, modelled as lists of characters. -/
abbrev Str := List Char

/-- Helper turning a Lean string literal into the `Str` model. -/
def str (s : String) : Str := s.data

/-- Model of Python `s.split(sep)` for a single-character separator:
`"".split(".") = [""]`, `"a..b".split(".") = ["a", "", "b"]`. -/
def pySplit (sep : Char) : Str → List Str
  | [] => [[]]
  | c :: rest =>
    match pySplit sep rest with
    | t :: ts => if c = sep then [] :: t :: ts else (c :: t) :: ts
    | [] => [[]]

/-- Model of Python `sep.join(tokens)` for a single-character separator. -/
def pyJoin (sep : Char) : List Str → Str
  | [] => []
  | [t] => t
  | t₁ :: t₂ :: ts => t₁ ++ sep :: pyJoin sep (t₂ :: ts)

/-- Errors raised by the embedded Python code. -/
inductive PyErr where
  /-- A `ValueError`, `RuntimeError` or `TimeoutError` with a fixed message. -/
  | valueError (msg : String)
  /-- The `ValueError` raised by `extract_subject_placeholders` when the
  subject is too short; carries the offending placeholder key and index. -/
  | missingPlaceholderAt (key : Str) (idx : Nat)
  /-- The `KeyError` raised by `render_subject`; carries all of the
  placeholder keys left unresolved, in placeholder order. -/
  | missingPlaceholders (keys : List Str)
  /-- An `IndexError` from a list assignment out of range. -/
  | indexError
  deriving DecidableEq, Repr

/-- The default `FilterSyntax` separator character (`match_sep`). -/
def matchSep : Char := '.'

/-- The default `FilterSyntax` multi-token wildcard token (`match_all`, `">"`). -/
def matchAll : Str := ['>']

/-- The default `FilterSyntax` single-token wildcard token (`match_one`, `"*"`). -/
def matchOne : Str := ['*']

/-! ## `filter_match` (src/src/pyhosting/core/utils/events.py, lines 123-165)

The Python function iterates over the filter tokens with an index into the
subject tokens, keeping a `matches` flag, and can return early; afterwards a
final check handles a trailing `*`.  `matchLoop` embeds the `for` loop:
`LoopOut.early b` models an early `return b`, `LoopOut.fin flag` models
falling off the end of the loop with the current `matches` flag. -/

/-- Outcome of the `for` loop inside `filter_match`. -/
inductive LoopOut where
  /-- The loop executed `return b`. -/
  | early (b : Bool)
  /-- The loop finished; carries the final value of the `matches` flag. -/
  | fin (flag : Bool)
  deriving DecidableEq, Repr

/-- The `for idx, token in enumerate(filter_tokens)` loop of `filter_match`.
`S` is the subject token list, the arguments are the remaining filter
tokens, the current index and the current `matches` flag.  An equal token
advances; `>` returns `True`; `*` advances setting the flag; any other
mismatch returns `False`.  (The `matches = False` assignment in the
`except IndexError` branch of the source is observationally dead: it is
always followed by `return True`, by `matches = True`, or by `return False`.) -/
def matchLoop (S : List Str) : List Str → Nat → Bool → LoopOut
  | [], _, flag => .fin flag
  | tok :: rest, i, flag =>
    if (S.get? i).any (fun u => u = tok) then
      matchLoop S rest (i + 1) flag
    else if tok = matchAll then
      .early true
    else if tok = matchOne then
      matchLoop S rest (i + 1) true
    else
      .early false

/-- `filter_match(filter, subject)` from pyhosting/core/utils/events.py:
raises `ValueError` on an empty subject or filter, returns `True` when the
strings are equal, otherwise runs the token loop; when the loop falls
through, the subject is rejected if the last filter token is `*` and the
subject has at least two tokens beyond that position, else the `matches`
flag is returned. -/
def filter_match (fil subj : Str) : Except PyErr Bool :=
  if subj = [] then .error (.valueError "Subject cannot be empty")
  else if fil = [] then .error (.valueError "Filter subject cannot be empty")
  else if subj = fil then .ok true
  else
    let S := pySplit matchSep subj
    let F := pySplit matchSep fil
    match matchLoop S F 0 false with
    | .early b => .ok b
    | .fin flag =>
      if F.getLast? = some matchOne ∧ S.length - (F.length - 1) > 1 then .ok false
      else .ok flag

/-- The Boolean value computed by `filter_match` on non-empty arguments
(the function total on all inputs; `filter_match` equals `.ok` of this
whenever neither string is empty). -/
def filterMatchB (fil subj : Str) : Bool :=
  if subj = fil then true
  else
    let S := pySplit matchSep subj
    let F := pySplit matchSep fil
    match matchLoop S F 0 false with
    | .early b => b
    | .fin flag =>
      if F.getLast? = some matchOne ∧ S.length - (F.length - 1) > 1 then false
      else flag

/-- A declarative token-by-token description of `filter_match` acceptance
on non-empty inputs, following the amended claim; it is compared with the
loop-based embedding above.  The subject matches when it equals the filter;
or when the scan meets a `>` filter token at a position where the subject
token differs or is absent, every earlier position having advanced (equal
tokens, or a `*` filter token); or when every filter position advances, at
least one of them as a `*` over a differing or absent subject token, and it
is not the case that the filter ends in `*` while the subject has more
tokens than the filter.  (`S.get? k = F.get? k` states that the subject has
a `k`-th token equal to the filter's; `*` and `>` act at any position,
including past the subject's end.) -/
def filterMatchSpec (fil subj : Str) : Prop :=
  let S := pySplit matchSep subj
  let F := pySplit matchSep fil
  subj = fil ∨
  (∃ j, j < F.length ∧ F.get? j = some matchAll ∧
    ¬ (S.get? j = F.get? j) ∧
    ∀ k, k < j → (S.get? k = F.get? k ∨ F.get? k = some matchOne)) ∨
  ((∀ k, k < F.length → (S.get? k = F.get? k ∨ F.get? k = some matchOne)) ∧
    (∃ k, k < F.length ∧ ¬ (S.get? k = F.get? k) ∧ F.get? k = some matchOne) ∧
    ¬ (F.getLast? = some matchOne ∧ F.length < S.length))

/-! ## Subject templates: `render_subject` and `extract_subject_placeholders`
(src/src/pyhosting/core/utils/events.py, lines 82-120)

Placeholder maps (Python `Dict[str, int]`) are modelled as association
lists `List (Str × Nat)` with distinct keys, in insertion order; scope
mappings (`Mapping[str, str]`) as `List (Str × Str)`. -/

/-- First-occurrence association-list lookup, modelling `dict[key]` /
`key in dict`. -/
def pyLookup {β : Type} (l : List (Str × β)) (k : Str) : Option β :=
  match l with
  | [] => none
  | p :: rest => if p.1 = k then some p.2 else pyLookup rest k

/-- Model of `dict.pop(key)`: remove the (unique) entry with the given key.
Removes the first occurrence. -/
def popKey {β : Type} (l : List (Str × β)) (k : Str) : List (Str × β) :=
  match l with
  | [] => []
  | p :: rest => if p.1 = k then rest else p :: popKey rest k

/-- Model of the Python list assignment `tokens[idx] = value`, which raises
`IndexError` when the index is out of range. -/
def pySetAt (ts : List Str) (i : Nat) (v : Str) : Except PyErr (List Str) :=
  if i < ts.length then .ok (ts.set i v) else .error .indexError

/-- The `for key, value in context.items()` loop of `render_subject`:
keys present in the placeholder map are popped and their token slot is
assigned; other keys are ignored.  Returns the final token list and the
placeholders that remain unpopped. -/
def renderLoop : List (Str × Str) → List Str → List (Str × Nat) →
    Except PyErr (List Str × List (Str × Nat))
  | [], ts, ph => .ok (ts, ph)
  | (k, v) :: rest, ts, ph =>
    match pyLookup ph k with
    | some i => do
        let ts' ← pySetAt ts i v
        renderLoop rest ts' (popKey ph k)
    | none => renderLoop rest ts ph

/-- `render_subject(tokens, placeholders, context)` from
pyhosting/core/utils/events.py lines 102-120: substitute each context value
into its placeholder's token slot, join with the separator, and raise
`KeyError` naming all still-unresolved placeholders if any remain. -/
def render_subject (tokens : List Str) (placeholders : List (Str × Nat))
    (context : List (Str × Str)) : Except PyErr Str := do
  let (ts, ph) ← renderLoop context tokens placeholders
  let subject := pyJoin matchSep ts
  if ph.isEmpty then .ok subject
  else .error (.missingPlaceholders (ph.map Prod.fst))

/-- The `while placeholders: key, idx = placeholders.popitem()` loop of
`extract_subject_placeholders`; `popitem` pops entries in LIFO order, so
the loop walks the reversed placeholder list. -/
def extractLoop (tokens : List Str) : List (Str × Nat) → List (Str × Str) →
    Except PyErr (List (Str × Str))
  | [], values => .ok values
  | (k, i) :: rest, values =>
    match tokens.get? i with
    | some tok => extractLoop tokens rest (values ++ [(k, tok)])
    | none => .error (.missingPlaceholderAt k i)

/-- `extract_subject_placeholders(subject, placeholders)` from
pyhosting/core/utils/events.py lines 82-99: split the subject and read the
token at each placeholder index; a too-short subject raises `ValueError`
naming the key and index. -/
def extract_subject_placeholders (subject : Str) (placeholders : List (Str × Nat)) :
    Except PyErr (List (Str × Str)) :=
  extractLoop (pySplit matchSep subject) placeholders.reverse []

/-- Model of Python `dict ==` on two maps given as association lists with
distinct keys: equal key sets with equal values, order irrelevant. -/
def pyDictEq (a b : List (Str × Str)) : Bool :=
  a.all (fun p => pyLookup b p.1 = some p.2) &&
    b.all (fun p => pyLookup a p.1 = some p.2)

/-- `S.extract(S.render(k))` compared with `k` by Python dict equality. -/
def render_extract_roundtrip (tokens : List Str) (placeholders : List (Str × Nat))
    (context : List (Str × Str)) : Except PyErr Bool := do
  let subject ← render_subject tokens placeholders context
  let values ← extract_subject_placeholders subject placeholders
  pure (pyDictEq values context)

/-- Total restatement of `renderLoop` (using the total `List.set`), equal
to `renderLoop` whenever every placeholder index is within the token list;
used to factor the correctness proofs. -/
def renderLoopT : List (Str × Str) → List Str → List (Str × Nat) →
    (List Str × List (Str × Nat))
  | [], ts, ph => (ts, ph)
  | (k, v) :: rest, ts, ph =>
    match pyLookup ph k with
    | some i => renderLoopT rest (ts.set i v) (popKey ph k)
    | none => renderLoopT rest ts ph

/-! ## `EventSpec` (src/src/synopsys/core/events.py, lines 81-152) -/

/-- Modelled from the spec: `normalize_filter_subject` is imported by
src/src/synopsys/core/events.py from `synopsys.core.utils`, a module that
is not present under src/ (pyhosting's `substitute_placeholders` is its
in-repo sibling).  Per spec section 4.1, template normalization walks the
address token by token: a token of the form `{name}` becomes `*` and the
placeholder name is recorded with its token index; a placeholder that is
not a whole token is rejected at construction. -/
def normalizeTokens : List Str → Nat → Except PyErr (List Str × List (Str × Nat))
  | [], _ => .ok ([], [])
  | tok :: rest, i =>
    if tok.head? = some '{' ∧ tok.getLast? = some '}' ∧ 2 ≤ tok.length then do
      let (ts, ph) ← normalizeTokens rest (i + 1)
      .ok (matchOne :: ts, ((tok.drop 1).dropLast, i) :: ph)
    else if '{' ∈ tok ∨ '}' ∈ tok then
      .error (.valueError "Placeholder must occupy whole token")
    else do
      let (ts, ph) ← normalizeTokens rest (i + 1)
      .ok (tok :: ts, ph)

/-- Modelled from the spec (see `normalizeTokens`): normalize an address to
a concrete filter subject plus its placeholder map, e.g.
`"pages.{id}.versions.{v}"` to `("pages.*.versions.*", [(id,1),(v,3)])`. -/
def normalize_filter_subject (address : Str) :
    Except PyErr (Str × List (Str × Nat)) := do
  let (ts, ph) ← normalizeTokens (pySplit matchSep address) 0
  .ok (pyJoin matchSep ts, ph)

/-- The attributes of a constructed `EventSpec` that the verified
operations depend on: `_subject` (the normalized filter), `_tokens` and
`_placeholders`, next to `name` and `address`. -/
structure EventSpecModel where
  name : Str
  address : Str
  subjectFilter : Str
  tokens : List Str
  placeholders : List (Str × Nat)
  deriving DecidableEq, Repr

/-- `EventSpec.__init__` from src/src/synopsys/core/events.py lines 81-129:
reject empty name or address, normalize the address, and when the scope
type has annotations (`scopeAnn = some fields`) compare the NUMBER of scope
fields with the NUMBER of placeholders: more fields than placeholders or
fewer fields than placeholders raises `ValueError` (the Python messages
also interpolate a set difference, which the model elides); a scope without
annotations (`scopeAnn = none`) skips validation entirely. -/
def eventSpecInit (name address : Str) (scopeAnn : Option (List Str)) :
    Except PyErr EventSpecModel :=
  if name = [] then .error (.valueError "Name cannot be empty")
  else if address = [] then .error (.valueError "Address cannot be empty")
  else do
    let (subject, ph) ← normalize_filter_subject address
    let spec : EventSpecModel :=
      { name := name, address := address, subjectFilter := subject,
        tokens := pySplit matchSep subject, placeholders := ph }
    match scopeAnn with
    | none => .ok spec
    | some ann =>
      if ann.length > ph.length then
        .error (.valueError
          "Not enough placeholders in address or unexpected scope variable")
      else if ann.length < ph.length then
        .error (.valueError
          "Too many placeholders in address or missing scope variables")
      else .ok spec

/-- `EventSpec.get_subject` (src/src/synopsys/core/events.py lines 138-145). -/
def get_subject (e : EventSpecModel) (scope : List (Str × Str)) : Except PyErr Str :=
  render_subject e.tokens e.placeholders scope

/-- `EventSpec.match_subject` (src/src/synopsys/core/events.py lines 134-136). -/
def match_subject (e : EventSpecModel) (subject : Str) : Except PyErr Bool :=
  filter_match e.subjectFilter subject

/-- `EventSpec.extract_scope` (src/src/synopsys/core/events.py lines 147-152). -/
def extract_scope (e : EventSpecModel) (subject : Str) :
    Except PyErr (List (Str × Str)) :=
  extract_subject_placeholders subject e.placeholders

/-! ## In-memory event bus (src/src/synopsys/adapters/memory/bus.py) -/

/-- The part of an `InMemoryMessage` relevant to delivery: the concrete
subject and the payload. -/
structure MsgModel (α : Type) where
  subject : Str
  payload : α
  deriving DecidableEq, Repr

/-- One entry of `InMemoryEventBus.subscribers` (or `.responders`): the
target spec, the queue-group name (`""` when none) and the inbox, an
`asyncio.Queue` with its `maxsize` (`0` meaning unbounded) and current
items. -/
structure SubRecord (α : Type) where
  target : EventSpecModel
  queue : Str
  maxsize : Nat
  items : List (MsgModel α)
  deriving DecidableEq, Repr

/-- `asyncio.Queue.put_nowait` raises `QueueFull` exactly when the queue is
bounded and at capacity. -/
def queueFull {α : Type} (r : SubRecord α) : Prop :=
  0 < r.maxsize ∧ r.maxsize ≤ r.items.length

instance {α : Type} (r : SubRecord α) : Decidable (queueFull r) :=
  inferInstanceAs (Decidable (_ ∧ _))

/-- The record appended by `InMemoryEventBus.subscribe` (lines 136-161) /
`.serve` (lines 163-194): `queue = queue or ""`, and a fresh `AIOQueue()`,
that is an inbox with `maxsize` 0 (unbounded) and no items. -/
def subscribe_record (α : Type) (e : EventSpecModel) (queue : Option Str) :
    SubRecord α :=
  { target := e, queue := queue.getD [], maxsize := 0, items := [] }

/-- `InMemoryEventBus.__notify_event_observers` (lines 100-116), walking
the subscriber records with the `queues_processed` set: a grouped record
whose group was already satisfied is skipped; a non-matching record is
skipped; `put_nowait` is attempted, a full inbox drops the delivery
(`except QueueFull: continue`) without marking the group; a successful put
marks the group.  Returns each record (with its new inbox) paired with
whether it received the message. -/
def notifyGo {α : Type} (subject : Str) (payload : α) :
    List (SubRecord α) → List Str → Except PyErr (List (SubRecord α × Bool))
  | [], _ => .ok []
  | r :: rest, processed =>
    if r.queue ≠ [] ∧ r.queue ∈ processed then do
      let out ← notifyGo subject payload rest processed
      .ok ((r, false) :: out)
    else do
      let m ← match_subject r.target subject
      if m = false then do
        let out ← notifyGo subject payload rest processed
        .ok ((r, false) :: out)
      else if queueFull r then do
        let out ← notifyGo subject payload rest processed
        .ok ((r, false) :: out)
      else do
        let r' : SubRecord α := { r with items := r.items ++ [⟨subject, payload⟩] }
        let processed' := if r.queue ≠ [] then r.queue :: processed else processed
        let out ← notifyGo subject payload rest processed'
        .ok ((r', true) :: out)

/-- `__notify_event_observers` entered with an empty `queues_processed` set. -/
def notify_event_observers {α : Type} (subject : Str) (payload : α)
    (records : List (SubRecord α)) : Except PyErr (List (SubRecord α × Bool)) :=
  notifyGo subject payload records []

/-- Total restatement of `notifyGo` using `filterMatchB`; equal to
`notifyGo` whenever the subject and every record's filter are non-empty. -/
def notifyGoT {α : Type} (subject : Str) (payload : α) :
    List (SubRecord α) → List Str → List (SubRecord α × Bool)
  | [], _ => []
  | r :: rest, processed =>
    if r.queue ≠ [] ∧ r.queue ∈ processed then
      (r, false) :: notifyGoT subject payload rest processed
    else if filterMatchB r.target.subjectFilter subject = false then
      (r, false) :: notifyGoT subject payload rest processed
    else if queueFull r then
      (r, false) :: notifyGoT subject payload rest processed
    else
      ({ r with items := r.items ++ [⟨subject, payload⟩] }, true) ::
        notifyGoT subject payload rest
          (if r.queue ≠ [] then r.queue :: processed else processed)

/-- `InMemoryEventBus.publish` (lines 66-77): render the concrete subject
with `event.get_subject(scope)`, build the `InMemoryMessage` (whose
constructor extracts the scope from the subject) and notify the observers.
Errors from rendering or extraction propagate to the caller. -/
def publish {α : Type} (e : EventSpecModel) (scope : List (Str × Str))
    (payload : α) (records : List (SubRecord α)) :
    Except PyErr (List (SubRecord α × Bool)) := do
  let subject ← get_subject e scope
  let _msgScope ← extract_scope e subject
  notify_event_observers subject payload records

/-! ## Play actor loops (src/src/synopsys/concurrency/play.py) -/

/-- Instrumentation calls recorded while an actor task processes one
envelope. -/
inductive InstrEvent (ε : Type) where
  /-- `instrumentation.event_processed(self, actor, msg)`. -/
  | event_processed
  /-- `instrumentation.event_processing_failed(self, actor, msg, exc)`. -/
  | event_processing_failed (exc : ε)
  deriving DecidableEq, Repr

/-- The subscriber task body built by `Play._process_events_iterator`
(lines 104-125), run over a finite prefix of delivered envelopes, each
represented by its handler outcome (`.ok ()` for a normal return,
`.error e` for a raised exception).  The loop body is
`try: await handler(event) / except Exception as exc:
instrumentation.event_processing_failed(...) / else:
instrumentation.event_processed(...)` and then continues with the next
envelope; the exception is not re-raised, so the returned task exception
(second component) is `none` on every input.  (`Play._process_jobs_iterator`
for consumers, lines 127-147, has the identical shape.) -/
def process_events_iterator {ε : Type} :
    List (Except ε Unit) → List (InstrEvent ε) × Option ε
  | [] => ([], none)
  | .ok _ :: rest =>
    let r := process_events_iterator rest
    (.event_processed :: r.1, r.2)
  | .error e :: rest =>
    let r := process_events_iterator rest
    (.event_processing_failed e :: r.1, r.2)

/-- The responder task body built by `Play._process_requests_iterator`
(lines 77-102), run over a finite prefix of delivered requests: on a
handler result `r` the runtime calls `await request.reply(r)` and then
`event_processed`; on a handler exception no reply is sent and
`event_processing_failed` fires; the loop continues either way.  Returns
the list of replies sent and the instrumentation calls. -/
def process_requests_iterator {ε ρ : Type} :
    List (Except ε ρ) → List ρ × List (InstrEvent ε)
  | [] => ([], [])
  | .ok r :: rest =>
    let t := process_requests_iterator rest
    (r :: t.1, .event_processed :: t.2)
  | .error e :: rest =>
    let t := process_requests_iterator rest
    (t.1, .event_processing_failed e :: t.2)

/-- The observable completion state of an `asyncio.Task`. -/
inductive TaskExit (ε : Type) where
  /-- `task.cancelled()` is true. -/
  | cancelled
  /-- The task completed and `task.exception()` is `None`. -/
  | completed
  /-- The task completed with an exception. -/
  | failed (exc : ε)
  deriving DecidableEq, Repr

/-- Whether the done-callback installed by `Play._cancel_on_first_exception`
(lines 59-75) cancels the remaining tasks, as a function of the completed
task's state: it does so exactly when the task finished with an exception
(a cancelled task only fires `actor_cancelled`). -/
def cancel_on_first_exception {ε : Type} : TaskExit ε → Bool
  | .cancelled => false
  | .completed => false
  | .failed _ => true

/-- `Play._collect_exceptions` (lines 47-57) over the task list; `none`
models a task that is not yet done (skipped), a cancelled or cleanly
completed task contributes nothing, a failed task contributes its
exception. -/
def collect_exceptions {ε : Type} (tasks : List (Option (TaskExit ε))) : List ε :=
  tasks.filterMap (fun t =>
    match t with
    | none => none
    | some .cancelled => none
    | some .completed => none
    | some (.failed e) => some e)

/-- The number of `play_failed` calls made by `Play.stop` (lines 196-210):
one exactly when `self.errors()` is non-empty, zero otherwise. -/
def play_failed_calls {ε : Type} (tasks : List (Option (TaskExit ε))) : Nat :=
  if (collect_exceptions tasks).isEmpty then 0 else 1

/-- An actor handed to a `Play` (consumers are omitted: the in-memory bus
`pull` raises `NotImplementedError`). -/
inductive ActorModel where
  /-- A `Subscriber` on an event spec. -/
  | subscriber (event : EventSpecModel)
  /-- A `Responder` on a service spec. -/
  | responder (event : EventSpecModel)
  deriving DecidableEq, Repr

set_option linter.unusedVariables false in
/-- The subscription records opened on the in-memory bus by `Play.start`
(lines 154-189): for each actor in order, a `Responder` enters
`self.bus.serve(actor.event)` and a `Subscriber` enters
`self.bus.subscribe(actor.event)`; neither call passes a queue argument,
so every record is created with `queue=None`.  The play's `queue` option
(first parameter here) is never consulted by `start`. -/
def play_start_records (α : Type) (queue : Option Str) (actors : List ActorModel) :
    List (SubRecord α) :=
  actors.map (fun a =>
    match a with
    | .subscriber e => subscribe_record α e none
    | .responder e => subscribe_record α e none)

/-- `asyncio.wait_for(self.__request_event(req), timeout)` from
`InMemoryEventBus.request` (lines 79-98): the requester's reply
subscription resolves with the data of the first message delivered to its
inbox, and times out if none arrives. -/
def in_memory_request_resolve {ρ : Type} (inbox : List (MsgModel ρ)) :
    Except PyErr ρ :=
  match inbox with
  | m :: _ => .ok m.payload
  | [] => .error (.valueError "TimeoutError")

/-- End-to-end request/reply flow on the in-memory bus for one delivered
request whose handler outcome is given: the requester subscribes to the
fresh reply subject (`InMemoryRequest._reply_event`, a static spec on that
subject); the responder loop (`process_requests_iterator`) sends one
`reply(r)` per successful outcome, each being `InMemoryRequest.reply`, that
is an ordinary publish on the reply spec; finally the requester resolves
from its inbox or times out. -/
def responder_request_flow (ρ : Type) (outcome : Except String ρ) :
    Except PyErr ρ := do
  let rspec ← eventSpecInit (str "reply") (str "reply.subject") none
  let waiter := subscribe_record ρ rspec none
  let replies := (process_requests_iterator [outcome]).1
  let final ← replies.foldlM (fun recs rep => do
      let out ← publish rspec [] rep recs
      pure (out.map Prod.fst)) [waiter]
  match final with
  | [w] => in_memory_request_resolve w.items
  | _ => .error (.valueError "unreachable")

/-- The `EventSpec` produced by `eventSpecInit "test-event" "test" none`
(the spec used by the concrete Play scenarios in the repository's tests). -/
def testSpec : EventSpecModel :=
  { name := str "test-event", address := str "test",
    subjectFilter := str "test", tokens := [str "test"], placeholders := [] }

/-- A two-placeholder spec with scope field names disjoint from the
placeholder names; used to probe `EventSpec` construction. -/
def mismatchSpecInit : Except PyErr EventSpecModel :=
  eventSpecInit (str "evt") (str "x.{c}.{d}") (some [str "a", str "b"])

/-- Number of records of a given queue group that received the message in a
notify outcome. -/
def receivedInGroup {α : Type} (q : Str) (out : List (SubRecord α × Bool)) : Nat :=
  out.countP (fun rb => rb.2 && decide (rb.1.queue = q))

/-- The subject rendering performed while `InMemoryEventBus.request`
(lines 79-98) constructs its `InMemoryRequest`: `event.get_subject(scope)`
followed by the scope extraction done by `BaseInMemoryMessage.__init__`;
any error propagates to the caller before anything is delivered. -/
def request_construct (e : EventSpecModel) (scope : List (Str × Str)) :
    Except PyErr Str := do
  let subject ← get_subject e scope
  let _msgScope ← extract_scope e subject
  pure subject

/-!
# Theorems

First the scratch evaluations validating the embeddings on the concrete
vectors from the repository's unit tests, then the lemma library, then one
theorem per specification claim.
-/

example : filter_match (str "a") (str "a") = .ok true := rfl
example : filter_match (str "a.*.c") (str "a.b.c") = .ok true := rfl
example : filter_match (str "a.*.c") (str "a.x.c") = .ok true := rfl
example : filter_match (str "a.*.c") (str "a.b") = .ok false := rfl
example : filter_match (str "a.*.c") (str "a.b.c.d") = .ok true := rfl
example : filter_match (str "a.>") (str "a.b") = .ok true := rfl
example : filter_match (str "a.>") (str "a.b.c") = .ok true := rfl
example : filter_match (str "a.>") (str "a") = .ok true := rfl
example : filter_match (str "a.*") (str "a.b") = .ok true := rfl
example : filter_match (str "a.*") (str "a.b.c") = .ok false := rfl
example : filter_match (str "a.*") (str "a") = .ok true := rfl
example : filter_match (str "ab.*") (str "ab.a") = .ok true := rfl
example : filter_match (str ">") (str "ab.a") = .ok true := rfl
example : filter_match (str "b") (str "a") = .ok false := rfl
example : filter_match (str "a.b") (str "a.a") = .ok false := rfl
example : filter_match (str "*.b.c") (str "a.b.c") = .ok true := rfl
example : filter_match (str "a.b.*") (str "a.b.c") = .ok true := rfl
example : filter_match [] (str "s") = .error (.valueError "Filter subject cannot be empty") := rfl
example : filter_match (str "f") [] = .error (.valueError "Subject cannot be empty") := rfl

/-! ## Basic lemmas about `pySplit` and `pyJoin` -/

theorem pySplit_ne_nil (sep : Char) (s : Str) : pySplit sep s ≠ [] := by
  cases s with
  | nil => simp [pySplit]
  | cons c rest =>
    simp only [pySplit]
    split
    · split <;> simp
    · simp

/-- A string without the separator splits to the singleton token list. -/
theorem pySplit_of_not_mem (sep : Char) (t : Str) (h : sep ∉ t) :
    pySplit sep t = [t] := by
  induction t with
  | nil => rfl
  | cons c rest ih =>
    simp only [List.mem_cons, not_or] at h
    simp [pySplit, ih h.2, Ne.symm h.1]

theorem pySplit_append_sep (sep : Char) (t r : Str) (h : sep ∉ t) :
    pySplit sep (t ++ sep :: r) = t :: pySplit sep r := by
  induction t with
  | nil =>
    simp only [List.nil_append, pySplit]
    cases hr : pySplit sep r with
    | nil => exact absurd hr (pySplit_ne_nil sep r)
    | cons u us => simp
  | cons c rest ih =>
    simp only [List.mem_cons, not_or] at h
    simp [pySplit, ih h.2, Ne.symm h.1]

/-- Splitting the join of a non-empty list of separator-free tokens
recovers the tokens. -/
theorem pySplit_pyJoin (sep : Char) (ts : List Str) (hne : ts ≠ [])
    (hfree : ∀ t ∈ ts, sep ∉ t) : pySplit sep (pyJoin sep ts) = ts := by
  induction ts with
  | nil => exact absurd rfl hne
  | cons t rest ih =>
    cases rest with
    | nil =>
      simp only [pyJoin]
      exact pySplit_of_not_mem sep t (hfree t (by simp))
    | cons u us =>
      have h1 : sep ∉ t := hfree t (by simp)
      simp only [pyJoin]
      rw [pySplit_append_sep sep t _ h1, ih (by simp) (by
        intro x hx
        exact hfree x (by simp [hx]))]

/-! ## Lemmas about association lists, `renderLoop` and `extractLoop` -/

section AssocLemmas

variable {β : Type}

theorem pyLookup_mem {l : List (Str × β)} {k : Str} {v : β}
    (h : pyLookup l k = some v) : (k, v) ∈ l := by
  induction l with
  | nil => simp [pyLookup] at h
  | cons p rest ih =>
    simp only [pyLookup] at h
    split at h
    · rename_i hk
      cases h
      subst hk
      simp
    · exact List.mem_cons_of_mem _ (ih h)

theorem pyLookup_eq_none {l : List (Str × β)} {k : Str} :
    pyLookup l k = none ↔ k ∉ l.map Prod.fst := by
  induction l with
  | nil => simp [pyLookup]
  | cons p rest ih =>
    simp only [pyLookup, List.map_cons, List.mem_cons]
    split
    · rename_i hk
      constructor
      · intro h
        exact Option.noConfusion h
      · intro h
        exact absurd (Or.inl hk.symm) h
    · rename_i hk
      rw [ih]
      constructor
      · intro h hm
        rcases hm with hm | hm
        · exact hk hm.symm
        · exact h hm
      · intro h hm
        exact h (Or.inr hm)

theorem pyLookup_isSome_of_mem {l : List (Str × β)} {k : Str}
    (h : k ∈ l.map Prod.fst) : ∃ v, pyLookup l k = some v := by
  cases hl : pyLookup l k with
  | none => exact absurd h (pyLookup_eq_none.1 hl)
  | some v => exact ⟨v, rfl⟩

theorem mem_pyLookup {l : List (Str × β)} {k : Str} {v : β}
    (hn : (l.map Prod.fst).Nodup) (h : (k, v) ∈ l) : pyLookup l k = some v := by
  induction l with
  | nil => simp at h
  | cons p rest ih =>
    simp only [List.map_cons, List.nodup_cons] at hn
    simp only [List.mem_cons] at h
    simp only [pyLookup]
    rcases h with h | h
    · simp [← h]
    · have hne : p.1 ≠ k := by
        intro hk
        apply hn.1
        rw [hk]
        exact List.mem_map_of_mem Prod.fst h
      simp [hne, ih hn.2 h]

theorem popKey_sublist (l : List (Str × β)) (k : Str) : (popKey l k).Sublist l := by
  induction l with
  | nil => simp [popKey]
  | cons p rest ih =>
    simp only [popKey]
    split
    · exact List.sublist_cons_self p rest
    · exact List.Sublist.cons₂ p ih

theorem popKey_of_not_mem {l : List (Str × β)} {k : Str}
    (h : k ∉ l.map Prod.fst) : popKey l k = l := by
  induction l with
  | nil => rfl
  | cons p rest ih =>
    simp only [List.map_cons, List.mem_cons, not_or] at h
    simp only [popKey]
    rw [if_neg (fun hk => h.1 hk.symm), ih h.2]

theorem popKey_eq_filter {l : List (Str × β)} {k : Str}
    (hn : (l.map Prod.fst).Nodup) :
    popKey l k = l.filter (fun p => p.1 ≠ k) := by
  induction l with
  | nil => rfl
  | cons p rest ih =>
    simp only [List.map_cons, List.nodup_cons] at hn
    simp only [popKey]
    split
    · rename_i hk
      have hall : ∀ q ∈ rest, q.1 ≠ k := by
        intro q hq hqk
        apply hn.1
        rw [hk, ← hqk]
        exact List.mem_map_of_mem Prod.fst hq
      rw [List.filter_cons_of_neg (by simp [hk]),
        List.filter_eq_self.2 (by intro q hq; simpa using hall q hq)]
    · rename_i hk
      rw [List.filter_cons_of_pos (by simpa using hk), ih hn.2]

theorem mem_popKey_of_ne {l : List (Str × β)} {k : Str} {p : Str × β}
    (hn : (l.map Prod.fst).Nodup) (hp : p ∈ l) (hne : p.1 ≠ k) :
    p ∈ popKey l k := by
  rw [popKey_eq_filter hn]
  exact List.mem_filter.2 ⟨hp, by simpa using hne⟩

theorem not_mem_map_popKey {l : List (Str × β)} {k : Str} {i : β}
    (hk : (l.map Prod.fst).Nodup) (hn : (l.map Prod.snd).Nodup)
    (hm : (k, i) ∈ l) : i ∉ (popKey l k).map Prod.snd := by
  induction l with
  | nil => simp at hm
  | cons p rest ih =>
    simp only [List.map_cons, List.nodup_cons] at hk hn
    simp only [List.mem_cons] at hm
    simp only [popKey]
    split
    · rename_i hpk
      rcases hm with hm | hm
      · have hip : i = p.2 := congrArg Prod.snd hm
        rw [hip]
        exact hn.1
      · exfalso
        apply hk.1
        rw [hpk]
        exact List.mem_map_of_mem Prod.fst hm
    · rename_i hpk
      rcases hm with hm | hm
      · exact absurd (congrArg Prod.fst hm).symm hpk
      · intro hi
        simp only [List.map_cons, List.mem_cons] at hi
        rcases hi with hi | hi
        · apply hn.1
          rw [← hi]
          exact List.mem_map_of_mem Prod.snd hm
        · exact ih hk.2 hn.2 hm hi

end AssocLemmas

theorem renderLoop_eq_total (context : List (Str × Str)) (ts : List Str)
    (ph : List (Str × Nat)) (hlt : ∀ p ∈ ph, p.2 < ts.length) :
    renderLoop context ts ph = .ok (renderLoopT context ts ph) := by
  induction context generalizing ts ph with
  | nil => rfl
  | cons p rest ih =>
    obtain ⟨k, v⟩ := p
    simp only [renderLoop, renderLoopT]
    cases hl : pyLookup ph k with
    | none => exact ih ts ph hlt
    | some i =>
      have hi : i < ts.length := hlt (k, i) (pyLookup_mem hl)
      have hset : pySetAt ts i v = .ok (ts.set i v) := if_pos hi
      have hih := ih (ts.set i v) (popKey ph k) (by
        intro q hq
        rw [List.length_set]
        exact hlt q ((popKey_sublist ph k).mem hq))
      show (do
          let ts' ← pySetAt ts i v
          renderLoop rest ts' (popKey ph k)) =
        Except.ok (renderLoopT rest (ts.set i v) (popKey ph k))
      rw [hset]
      exact hih

theorem renderLoopT_length (context : List (Str × Str)) (ts : List Str)
    (ph : List (Str × Nat)) :
    (renderLoopT context ts ph).1.length = ts.length := by
  induction context generalizing ts ph with
  | nil => rfl
  | cons p rest ih =>
    obtain ⟨k, v⟩ := p
    simp only [renderLoopT]
    cases pyLookup ph k with
    | none => exact ih ts ph
    | some i => rw [ih]; exact List.length_set ts i v

/-- The placeholders left over by the render loop are exactly those whose
key does not occur in the context, in order. -/
theorem renderLoopT_leftover (context : List (Str × Str)) (ts : List Str)
    (ph : List (Str × Nat)) (hnp : (ph.map Prod.fst).Nodup) :
    (renderLoopT context ts ph).2 =
      ph.filter (fun p => p.1 ∉ context.map Prod.fst) := by
  induction context generalizing ts ph with
  | nil => simp [renderLoopT]
  | cons q rest ih =>
    obtain ⟨k, v⟩ := q
    simp only [renderLoopT, List.map_cons]
    cases hl : pyLookup ph k with
    | none =>
      rw [ih ts ph hnp]
      refine List.filter_congr ?_
      intro p hp
      have hpk : p.1 ≠ k := by
        intro h
        exact (pyLookup_eq_none.1 hl) (h ▸ List.mem_map_of_mem Prod.fst hp)
      simp [hpk]
    | some i =>
      have hsub : ((popKey ph k).map Prod.fst).Nodup :=
        ((popKey_sublist ph k).map Prod.fst).nodup hnp
      rw [ih _ _ hsub, popKey_eq_filter hnp, List.filter_filter]
      refine List.filter_congr ?_
      intro p hp
      by_cases hpk : p.1 = k <;> simp [hpk]

/-- Token slots whose index is not a placeholder index are untouched by the
render loop. -/
theorem renderLoopT_get_untouched (context : List (Str × Str)) (ts : List Str)
    (ph : List (Str × Nat)) (j : Nat) (hj : j ∉ ph.map Prod.snd) :
    (renderLoopT context ts ph).1.get? j = ts.get? j := by
  induction context generalizing ts ph with
  | nil => rfl
  | cons q rest ih =>
    obtain ⟨k, v⟩ := q
    simp only [renderLoopT]
    cases hl : pyLookup ph k with
    | none => exact ih ts ph hj
    | some i =>
      have hij : i ≠ j := by
        intro h
        exact hj (h ▸ List.mem_map_of_mem Prod.snd (pyLookup_mem hl))
      have hjp : j ∉ (popKey ph k).map Prod.snd := by
        intro h
        exact hj (((popKey_sublist ph k).map Prod.snd).mem h)
      rw [ih _ _ hjp, List.get?_eq_getElem?, List.get?_eq_getElem?,
        List.getElem?_set_ne hij]

/-- The render loop writes each context value into its placeholder's slot. -/
theorem renderLoopT_get_assigned (context : List (Str × Str)) (ts : List Str)
    (ph : List (Str × Nat)) (hnp : (ph.map Prod.fst).Nodup)
    (hni : (ph.map Prod.snd).Nodup) (hlt : ∀ p ∈ ph, p.2 < ts.length)
    (n : Str) (i : Nat) (hmem : (n, i) ∈ ph) (v : Str)
    (hv : pyLookup context n = some v) :
    (renderLoopT context ts ph).1.get? i = some v := by
  induction context generalizing ts ph with
  | nil => simp [pyLookup] at hv
  | cons q rest ih =>
    obtain ⟨k, w⟩ := q
    simp only [renderLoopT]
    simp only [pyLookup] at hv
    by_cases hkn : k = n
    · subst hkn
      simp only [if_pos rfl] at hv
      cases hv
      rw [mem_pyLookup hnp hmem]
      have hnotin : i ∉ (popKey ph k).map Prod.snd :=
        not_mem_map_popKey hnp hni hmem
      rw [renderLoopT_get_untouched rest _ _ i hnotin,
        List.get?_eq_getElem?, List.getElem?_set_self']
      have hi : i < ts.length := hlt (k, i) hmem
      rw [List.getElem?_eq_getElem hi]
      rfl
    · rw [if_neg hkn] at hv
      cases hl : pyLookup ph k with
      | none => exact ih ts ph hnp hni hlt hmem hv
      | some j =>
        have hsubk : ((popKey ph k).map Prod.fst).Nodup :=
          ((popKey_sublist ph k).map Prod.fst).nodup hnp
        have hsubi : ((popKey ph k).map Prod.snd).Nodup :=
          ((popKey_sublist ph k).map Prod.snd).nodup hni
        have hmem' : (n, i) ∈ popKey ph k :=
          mem_popKey_of_ne hnp hmem (fun h => hkn h.symm)
        refine ih _ _ hsubk hsubi ?_ hmem' hv
        intro p hp
        rw [List.length_set]
        exact hlt p ((popKey_sublist ph k).mem hp)

/-- Every token produced by the render loop is an original token or a
context value. -/
theorem renderLoopT_mem (context : List (Str × Str)) (ts : List Str)
    (ph : List (Str × Nat)) (t : Str)
    (ht : t ∈ (renderLoopT context ts ph).1) :
    t ∈ ts ∨ ∃ p ∈ context, p.2 = t := by
  induction context generalizing ts ph with
  | nil => exact Or.inl ht
  | cons q rest ih =>
    obtain ⟨k, v⟩ := q
    simp only [renderLoopT] at ht
    cases hl : pyLookup ph k with
    | none =>
      rw [hl] at ht
      rcases ih ts ph ht with h | ⟨p, hp, hpv⟩
      · exact Or.inl h
      · exact Or.inr ⟨p, List.mem_cons_of_mem _ hp, hpv⟩
    | some i =>
      rw [hl] at ht
      rcases ih _ _ ht with h | ⟨p, hp, hpv⟩
      · rcases List.mem_or_eq_of_mem_set h with h | h
        · exact Or.inl h
        · exact Or.inr ⟨(k, v), List.mem_cons_self _ _, h.symm⟩
      · exact Or.inr ⟨p, List.mem_cons_of_mem _ hp, hpv⟩

/-- `extractLoop` succeeds and reads the token at each placeholder index
when all indices are in range. -/
theorem extractLoop_ok (tokens : List Str) (ph : List (Str × Nat))
    (acc : List (Str × Str)) (hlt : ∀ p ∈ ph, p.2 < tokens.length) :
    extractLoop tokens ph acc =
      .ok (acc ++ ph.map (fun p => (p.1, tokens.getD p.2 []))) := by
  induction ph generalizing acc with
  | nil => simp [extractLoop]
  | cons p rest ih =>
    obtain ⟨k, i⟩ := p
    have hi : i < tokens.length := hlt (k, i) (List.mem_cons_self _ _)
    have hred : extractLoop tokens ((k, i) :: rest) acc
        = extractLoop tokens rest (acc ++ [(k, tokens.get ⟨i, hi⟩)]) := by
      simp only [extractLoop]
      rw [List.get?_eq_getElem?, List.getElem?_eq_getElem hi]
      rfl
    rw [hred, ih _ (fun q hq => hlt q (List.mem_cons_of_mem _ hq)),
      List.map_cons, List.getD_eq_getElem tokens [] hi]
    simp [List.get_eq_getElem]

/-! ## Lemmas about the in-memory bus delivery loop -/

theorem filter_match_eq_total (fil subj : Str) (hf : fil ≠ []) (hs : subj ≠ []) :
    filter_match fil subj = .ok (filterMatchB fil subj) := by
  unfold filter_match filterMatchB
  rw [if_neg hs, if_neg hf]
  by_cases h : subj = fil
  · rw [if_pos h, if_pos h]
  · rw [if_neg h, if_neg h]
    cases hml : matchLoop (pySplit matchSep subj) (pySplit matchSep fil) 0 false with
    | early b => simp [hml]
    | fin flag =>
      simp only [hml]
      split <;> rfl

theorem matchLoop_early_true_iff (S G : List Str) (i : Nat) (flag : Bool) :
    matchLoop S G i flag = .early true ↔
      ∃ j, j < G.length ∧ G.get? j = some matchAll ∧
        ¬ (S.get? (i + j) = G.get? j) ∧
        ∀ k, k < j → (S.get? (i + k) = G.get? k ∨ G.get? k = some matchOne) := by
  induction G generalizing i flag with
  | nil =>
    constructor
    · intro h
      exact absurd h (by simp [matchLoop])
    · rintro ⟨j, hj, _⟩
      exact absurd hj (by simp)
  | cons t G' ih =>
    simp only [matchLoop]
    by_cases hc : ((S.get? i).any fun u => u = t) = true
    · have hSi : S.get? i = some t := by
        cases hS : S.get? i with
        | none => rw [hS] at hc; simp at hc
        | some u =>
          rw [hS] at hc
          simp only [Option.any, decide_eq_true_eq] at hc
          rw [hc]
      rw [if_pos hc, ih (i + 1) flag]
      constructor
      · rintro ⟨j, hj, hga, hne, hadv⟩
        refine ⟨j + 1, by simp only [List.length_cons]; omega, ?_, ?_, ?_⟩
        · rw [List.get?_cons_succ]
          exact hga
        · rw [List.get?_cons_succ]
          have hidx : i + (j + 1) = (i + 1) + j := by omega
          rw [hidx]
          exact hne
        · intro k hk
          cases k with
          | zero =>
            left
            rw [Nat.add_zero, List.get?_cons_zero]
            exact hSi
          | succ k' =>
            rw [List.get?_cons_succ]
            have hidx : i + (k' + 1) = (i + 1) + k' := by omega
            rw [hidx]
            exact hadv k' (Nat.lt_of_succ_lt_succ hk)
      · rintro ⟨j, hj, hga, hne, hadv⟩
        cases j with
        | zero =>
          rw [Nat.add_zero, List.get?_cons_zero] at hne
          exact absurd hSi hne
        | succ j' =>
          rw [List.get?_cons_succ] at hga
          rw [List.get?_cons_succ] at hne
          refine ⟨j', by simp only [List.length_cons] at hj; omega, hga, ?_, ?_⟩
          · have hidx : (i + 1) + j' = i + (j' + 1) := by omega
            rw [hidx]
            exact hne
          · intro k hk
            have h := hadv (k + 1) (Nat.succ_lt_succ hk)
            rw [List.get?_cons_succ] at h
            have hidx : i + (k + 1) = (i + 1) + k := by omega
            rw [hidx] at h
            exact h
    · rw [if_neg hc]
      have hSne : ¬ (S.get? i = some t) := by
        intro h
        apply hc
        rw [h]
        simp
      by_cases hta : t = matchAll
      · subst hta
        rw [if_pos rfl]
        constructor
        · intro _
          refine ⟨0, Nat.succ_pos _, ?_, ?_, ?_⟩
          · rw [List.get?_cons_zero]
          · rw [Nat.add_zero, List.get?_cons_zero]
            exact hSne
          · intro k hk
            exact absurd hk (Nat.not_lt_zero k)
        · intro _
          rfl
      · rw [if_neg hta]
        by_cases hto : t = matchOne
        · subst hto
          rw [if_pos rfl, ih (i + 1) true]
          constructor
          · rintro ⟨j, hj, hga, hne, hadv⟩
            refine ⟨j + 1, by simp only [List.length_cons]; omega, ?_, ?_, ?_⟩
            · rw [List.get?_cons_succ]
              exact hga
            · rw [List.get?_cons_succ]
              have hidx : i + (j + 1) = (i + 1) + j := by omega
              rw [hidx]
              exact hne
            · intro k hk
              cases k with
              | zero =>
                right
                rw [List.get?_cons_zero]
              | succ k' =>
                rw [List.get?_cons_succ]
                have hidx : i + (k' + 1) = (i + 1) + k' := by omega
                rw [hidx]
                exact hadv k' (Nat.lt_of_succ_lt_succ hk)
          · rintro ⟨j, hj, hga, hne, hadv⟩
            cases j with
            | zero =>
              rw [List.get?_cons_zero] at hga
              exact absurd (Option.some.inj hga) (by decide)
            | succ j' =>
              rw [List.get?_cons_succ] at hga
              rw [List.get?_cons_succ] at hne
              refine ⟨j', by simp only [List.length_cons] at hj; omega, hga, ?_, ?_⟩
              · have hidx : (i + 1) + j' = i + (j' + 1) := by omega
                rw [hidx]
                exact hne
              · intro k hk
                have h := hadv (k + 1) (Nat.succ_lt_succ hk)
                rw [List.get?_cons_succ] at h
                have hidx : i + (k + 1) = (i + 1) + k := by omega
                rw [hidx] at h
                exact h
        · rw [if_neg hto]
          constructor
          · intro h
            exact absurd h (by simp)
          · rintro ⟨j, hj, hga, hne, hadv⟩
            cases j with
            | zero =>
              rw [List.get?_cons_zero] at hga
              exact (hta (Option.some.inj hga)).elim
            | succ j' =>
              have h0 := hadv 0 (Nat.succ_pos j')
              rw [Nat.add_zero, List.get?_cons_zero] at h0
              rcases h0 with h0 | h0
              · exact (hSne h0).elim
              · exact (hto (Option.some.inj h0)).elim

theorem matchLoop_fin_true_iff (S G : List Str) (i : Nat) (flag : Bool) :
    matchLoop S G i flag = .fin true ↔
      ((∀ k, k < G.length → (S.get? (i + k) = G.get? k ∨ G.get? k = some matchOne)) ∧
        (flag = true ∨ ∃ k, k < G.length ∧ ¬ (S.get? (i + k) = G.get? k) ∧
          G.get? k = some matchOne)) := by
  induction G generalizing i flag with
  | nil =>
    simp only [matchLoop]
    constructor
    · intro h
      refine ⟨fun k hk => absurd hk (by simp), Or.inl ?_⟩
      exact LoopOut.fin.inj h
    · rintro ⟨_, hf | hex⟩
      · rw [hf]
      · obtain ⟨k, hk, _⟩ := hex
        exact absurd hk (by simp)
  | cons t G' ih =>
    simp only [matchLoop]
    by_cases hc : ((S.get? i).any fun u => u = t) = true
    · have hSi : S.get? i = some t := by
        cases hS : S.get? i with
        | none => rw [hS] at hc; simp at hc
        | some u =>
          rw [hS] at hc
          simp only [Option.any, decide_eq_true_eq] at hc
          rw [hc]
      rw [if_pos hc, ih (i + 1) flag]
      constructor
      · rintro ⟨hadv, hrest⟩
        constructor
        · intro k hk
          cases k with
          | zero =>
            left
            rw [Nat.add_zero, List.get?_cons_zero]
            exact hSi
          | succ k' =>
            rw [List.get?_cons_succ]
            have hidx : i + (k' + 1) = (i + 1) + k' := by omega
            rw [hidx]
            exact hadv k' (by simp only [List.length_cons] at hk; omega)
        · rcases hrest with hfl | ⟨k, hk, hne, hko⟩
          · exact Or.inl hfl
          · refine Or.inr ⟨k + 1, by simp only [List.length_cons]; omega, ?_, ?_⟩
            · rw [List.get?_cons_succ]
              have hidx : i + (k + 1) = (i + 1) + k := by omega
              rw [hidx]
              exact hne
            · rw [List.get?_cons_succ]
              exact hko
      · rintro ⟨hadv, hrest⟩
        constructor
        · intro k hk
          have h := hadv (k + 1) (by simp only [List.length_cons]; omega)
          rw [List.get?_cons_succ] at h
          have hidx : i + (k + 1) = (i + 1) + k := by omega
          rw [hidx] at h
          exact h
        · rcases hrest with hfl | ⟨k, hk, hne, hko⟩
          · exact Or.inl hfl
          · cases k with
            | zero =>
              rw [Nat.add_zero, List.get?_cons_zero] at hne
              exact absurd hSi hne
            | succ k' =>
              rw [List.get?_cons_succ] at hne
              rw [List.get?_cons_succ] at hko
              have hidx : i + (k' + 1) = (i + 1) + k' := by omega
              rw [hidx] at hne
              exact Or.inr ⟨k', by simp only [List.length_cons] at hk; omega, hne, hko⟩
    · rw [if_neg hc]
      have hSne : ¬ (S.get? i = some t) := by
        intro h
        apply hc
        rw [h]
        simp
      by_cases hta : t = matchAll
      · subst hta
        rw [if_pos rfl]
        constructor
        · intro h
          exact absurd h (by simp)
        · rintro ⟨hadv, _⟩
          have h0 := hadv 0 (Nat.succ_pos _)
          rw [Nat.add_zero, List.get?_cons_zero] at h0
          rcases h0 with h0 | h0
          · exact absurd h0 hSne
          · exact absurd (Option.some.inj h0) (by decide)
      · rw [if_neg hta]
        by_cases hto : t = matchOne
        · subst hto
          rw [if_pos rfl, ih (i + 1) true]
          constructor
          · rintro ⟨hadv, _⟩
            constructor
            · intro k hk
              cases k with
              | zero =>
                right
                rw [List.get?_cons_zero]
              | succ k' =>
                rw [List.get?_cons_succ]
                have hidx : i + (k' + 1) = (i + 1) + k' := by omega
                rw [hidx]
                exact hadv k' (by simp only [List.length_cons] at hk; omega)
            · refine Or.inr ⟨0, Nat.succ_pos _, ?_, ?_⟩
              · rw [Nat.add_zero, List.get?_cons_zero]
                exact hSne
              · rw [List.get?_cons_zero]
          · rintro ⟨hadv, _⟩
            refine ⟨?_, Or.inl rfl⟩
            intro k hk
            have h := hadv (k + 1) (by simp only [List.length_cons]; omega)
            rw [List.get?_cons_succ] at h
            have hidx : i + (k + 1) = (i + 1) + k := by omega
            rw [hidx] at h
            exact h
        · rw [if_neg hto]
          constructor
          · intro h
            exact absurd h (by simp)
          · rintro ⟨hadv, _⟩
            have h0 := hadv 0 (Nat.succ_pos _)
            rw [Nat.add_zero, List.get?_cons_zero] at h0
            rcases h0 with h0 | h0
            · exact absurd h0 hSne
            · exact absurd (Option.some.inj h0) hto

theorem filterMatchB_iff_spec (fil subj : Str) :
    filterMatchB fil subj = true ↔ filterMatchSpec fil subj := by
  unfold filterMatchB filterMatchSpec
  by_cases he : subj = fil
  · simp [he]
  · rw [if_neg he]
    simp only [he, false_or]
    have hFpos : 0 < (pySplit matchSep fil).length :=
      List.length_pos.2 (pySplit_ne_nil matchSep fil)
    have hA := matchLoop_early_true_iff (pySplit matchSep subj)
      (pySplit matchSep fil) 0 false
    have hB := matchLoop_fin_true_iff (pySplit matchSep subj)
      (pySplit matchSep fil) 0 false
    simp only [Nat.zero_add] at hA hB
    cases hml : matchLoop (pySplit matchSep subj) (pySplit matchSep fil) 0 false with
    | early b =>
      simp only [hml]
      rw [hml] at hA hB
      cases b with
      | true =>
        constructor
        · intro _
          exact Or.inl (hA.1 rfl)
        · intro _
          rfl
      | false =>
        constructor
        · intro h
          exact absurd h (by simp)
        · rintro (hacc | hcomp)
          · have h := hA.2 hacc
            simp at h
          · have h := hB.2 ⟨hcomp.1, Or.inr hcomp.2.1⟩
            simp at h
    | fin flag =>
      simp only [hml]
      rw [hml] at hA hB
      by_cases hlb : (pySplit matchSep fil).getLast? = some matchOne ∧
          (pySplit matchSep subj).length -
            ((pySplit matchSep fil).length - 1) > 1
      · rw [if_pos hlb]
        constructor
        · intro h
          exact absurd h (by simp)
        · rintro (hacc | hcomp)
          · have h := hA.2 hacc
            simp at h
          · have hl2 := hlb.2
            exact absurd ⟨hlb.1, by omega⟩ hcomp.2.2
      · rw [if_neg hlb]
        constructor
        · intro hfl
          have hfin : LoopOut.fin flag = LoopOut.fin true := by rw [hfl]
          obtain ⟨hadv, hrest⟩ := hB.1 hfin
          rcases hrest with hfalse | hstar
          · exact absurd hfalse (by simp)
          · refine Or.inr ⟨hadv, hstar, ?_⟩
            rintro ⟨h1, h2⟩
            exact hlb ⟨h1, by omega⟩
        · rintro (hacc | hcomp)
          · have h := hA.2 hacc
            simp at h
          · have h := hB.2 ⟨hcomp.1, Or.inr hcomp.2.1⟩
            exact LoopOut.fin.inj h

theorem notifyGo_eq_total {α : Type} (subject : Str) (payload : α)
    (records : List (SubRecord α)) (processed : List Str)
    (hs : subject ≠ []) (hf : ∀ r ∈ records, r.target.subjectFilter ≠ []) :
    notifyGo subject payload records processed =
      .ok (notifyGoT subject payload records processed) := by
  induction records generalizing processed with
  | nil => rfl
  | cons r rest ih =>
    have hrest : ∀ q ∈ rest, q.target.subjectFilter ≠ [] :=
      fun q hq => hf q (List.mem_cons_of_mem _ hq)
    have hfm : match_subject r.target subject
        = .ok (filterMatchB r.target.subjectFilter subject) :=
      filter_match_eq_total _ _ (hf r (List.mem_cons_self _ _)) hs
    simp only [notifyGo, notifyGoT]
    split
    · rw [ih _ hrest]
      rfl
    · rw [hfm]
      show (if filterMatchB r.target.subjectFilter subject = false then _
        else if queueFull r then _ else _) = _
      split
      · rw [ih _ hrest]
        rfl
      · split
        · rw [ih _ hrest]
          rfl
        · rw [ih _ hrest]
          rfl

theorem notifyGoT_length {α : Type} (s : Str) (p : α)
    (records : List (SubRecord α)) (processed : List Str) :
    (notifyGoT s p records processed).length = records.length := by
  induction records generalizing processed with
  | nil => rfl
  | cons r rest ih =>
    simp only [notifyGoT]
    split
    · simp [ih]
    · split
      · simp [ih]
      · split
        · simp [ih]
        · simp [ih]

/-- Each output record keeps the original's filter, queue name and
capacity. -/
theorem notifyGoT_map_shape {α : Type} (s : Str) (p : α)
    (records : List (SubRecord α)) (processed : List Str) :
    (notifyGoT s p records processed).map
        (fun rb => (rb.1.target, rb.1.queue, rb.1.maxsize)) =
      records.map (fun r => (r.target, r.queue, r.maxsize)) := by
  induction records generalizing processed with
  | nil => rfl
  | cons r rest ih =>
    simp only [notifyGoT]
    split
    · simp [ih]
    · split
      · simp [ih]
      · split
        · simp [ih]
        · simp [ih]

/-- A record that received the message matched the subject and had room in
its inbox, and its other fields are unchanged. -/
theorem notifyGoT_received_spec {α : Type} (s : Str) (p : α)
    (records : List (SubRecord α)) (processed : List Str) (j : Nat)
    (r : SubRecord α) (rb : SubRecord α × Bool)
    (hr : records.get? j = some r)
    (hrb : (notifyGoT s p records processed).get? j = some rb)
    (hflag : rb.2 = true) :
    filterMatchB r.target.subjectFilter s = true ∧ ¬ queueFull r ∧
      rb.1.queue = r.queue ∧ rb.1.maxsize = r.maxsize ∧
      rb.1.items = r.items ++ [⟨s, p⟩] := by
  induction records generalizing processed j with
  | nil => simp at hr
  | cons r0 rest ih =>
    cases j with
    | zero =>
      rw [List.get?_cons_zero] at hr
      cases hr
      simp only [notifyGoT] at hrb
      split at hrb
      · rw [List.get?_cons_zero] at hrb
        cases hrb
        exact absurd hflag (by simp)
      · split at hrb
        · rw [List.get?_cons_zero] at hrb
          cases hrb
          exact absurd hflag (by simp)
        · split at hrb
          · rw [List.get?_cons_zero] at hrb
            cases hrb
            exact absurd hflag (by simp)
          · rw [List.get?_cons_zero] at hrb
            cases hrb
            rename_i hm hq
            refine ⟨?_, hq, rfl, rfl, rfl⟩
            cases hb : filterMatchB r.target.subjectFilter s
            · exact absurd hb hm
            · rfl
    | succ n =>
      rw [List.get?_cons_succ] at hr
      simp only [notifyGoT] at hrb
      split at hrb
      · rw [List.get?_cons_succ] at hrb
        exact ih processed n hr hrb
      · split at hrb
        · rw [List.get?_cons_succ] at hrb
          exact ih processed n hr hrb
        · split at hrb
          · rw [List.get?_cons_succ] at hrb
            exact ih processed n hr hrb
          · rw [List.get?_cons_succ] at hrb
            exact ih _ n hr hrb

/-- A record with no queue-group name receives the message exactly when it
matches and its inbox has room; the `queues_processed` set never affects
it. -/
theorem notifyGoT_ungrouped {α : Type} (s : Str) (p : α)
    (records : List (SubRecord α)) (processed : List Str) (j : Nat)
    (r : SubRecord α) (rb : SubRecord α × Bool)
    (hr : records.get? j = some r)
    (hrb : (notifyGoT s p records processed).get? j = some rb)
    (hq : r.queue = []) :
    rb.2 = true ↔
      (filterMatchB r.target.subjectFilter s = true ∧ ¬ queueFull r) := by
  induction records generalizing processed j with
  | nil => simp at hr
  | cons r0 rest ih =>
    cases j with
    | zero =>
      rw [List.get?_cons_zero] at hr
      cases hr
      simp only [notifyGoT] at hrb
      split at hrb
      · rename_i hc
        exact absurd hq (by simpa using hc.1)
      · split at hrb
        · rw [List.get?_cons_zero] at hrb
          cases hrb
          rename_i hm
          constructor
          · intro h
            exact absurd h (by simp)
          · intro h
            exact absurd h.1 (by simp [hm])
        · split at hrb
          · rw [List.get?_cons_zero] at hrb
            cases hrb
            rename_i hfull
            constructor
            · intro h
              exact absurd h (by simp)
            · intro h
              exact absurd hfull h.2
          · rw [List.get?_cons_zero] at hrb
            cases hrb
            rename_i hm hfull
            simp only [true_iff]
            refine ⟨?_, hfull⟩
            cases hb : filterMatchB r.target.subjectFilter s
            · exact absurd hb hm
            · rfl
    | succ n =>
      rw [List.get?_cons_succ] at hr
      simp only [notifyGoT] at hrb
      split at hrb
      · rw [List.get?_cons_succ] at hrb
        exact ih processed n hr hrb
      · split at hrb
        · rw [List.get?_cons_succ] at hrb
          exact ih processed n hr hrb
        · split at hrb
          · rw [List.get?_cons_succ] at hrb
            exact ih processed n hr hrb
          · rw [List.get?_cons_succ] at hrb
            exact ih _ n hr hrb

/-- At most one member per queue-group receives the message; a group whose
name is already in `queues_processed` receives nothing. -/
theorem notifyGoT_group_count {α : Type} (s : Str) (p : α)
    (records : List (SubRecord α)) (processed : List Str) (q : Str)
    (hq : q ≠ []) :
    receivedInGroup q (notifyGoT s p records processed) ≤
      if q ∈ processed then 0 else 1 := by
  induction records generalizing processed with
  | nil =>
    simp only [notifyGoT, receivedInGroup, List.countP_nil]
    split <;> omega
  | cons r rest ih =>
    simp only [notifyGoT]
    split
    · have htail := ih processed
      simp only [receivedInGroup, List.countP_cons] at htail ⊢
      simpa using htail
    · split
      · have htail := ih processed
        simp only [receivedInGroup, List.countP_cons] at htail ⊢
        simpa using htail
      · split
        · have htail := ih processed
          simp only [receivedInGroup, List.countP_cons] at htail ⊢
          simpa using htail
        · rename_i hskip hm hfull
          by_cases hrq : r.queue = q
          · have hrqne : r.queue ≠ [] := by
              rw [hrq]
              exact hq
            have hqnp : q ∉ processed := by
              intro hmem
              refine hskip ⟨hrqne, ?_⟩
              rwa [hrq]
            rw [if_pos hrqne]
            have htail := ih (r.queue :: processed)
            rw [if_pos (by rw [hrq]; exact List.mem_cons_self _ _)] at htail
            simp only [receivedInGroup, List.countP_cons] at htail ⊢
            rw [if_neg hqnp]
            have hhead : ((({ r with items := r.items ++ [⟨s, p⟩] } :
                SubRecord α), true).2 &&
                decide ((({ r with items := r.items ++ [⟨s, p⟩] } :
                  SubRecord α), true).1.queue = q)) = true := by
              simp [hrq]
            rw [hhead]
            simp only [if_pos]
            omega
          · have hhead : ((({ r with items := r.items ++ [⟨s, p⟩] } :
                SubRecord α), true).2 &&
                decide ((({ r with items := r.items ++ [⟨s, p⟩] } :
                  SubRecord α), true).1.queue = q)) = false := by
              simp [hrq]
            have htail := ih (if r.queue ≠ [] then r.queue :: processed
                else processed)
            have hmemiff : q ∈ (if r.queue ≠ [] then r.queue :: processed
                else processed) ↔ q ∈ processed := by
              split
              · simp only [List.mem_cons]
                constructor
                · intro h
                  rcases h with h | h
                  · exact absurd h.symm hrq
                  · exact h
                · intro h
                  exact Or.inr h
              · exact Iff.rfl
            simp only [receivedInGroup, List.countP_cons] at htail ⊢
            rw [hhead]
            by_cases hcase : q ∈ processed
            · rw [if_pos (hmemiff.2 hcase)] at htail
              rw [if_pos hcase]
              simp at htail ⊢
              exact htail
            · rw [if_neg (fun h => hcase (hmemiff.1 h))] at htail
              rw [if_neg hcase]
              simp at htail ⊢
              omega

/-- A queue-group not yet satisfied receives the message exactly when some
member matches with room in its inbox; members with a full inbox are
skipped without blocking the group. -/
theorem notifyGoT_group_exists {α : Type} (s : Str) (p : α)
    (records : List (SubRecord α)) (processed : List Str) (q : Str)
    (hnp : q ∉ processed) :
    (notifyGoT s p records processed).any
        (fun rb => rb.2 && decide (rb.1.queue = q)) =
      records.any (fun r => decide (r.queue = q) &&
        (filterMatchB r.target.subjectFilter s && !(decide (queueFull r)))) := by
  induction records generalizing processed with
  | nil => rfl
  | cons r rest ih =>
    simp only [notifyGoT]
    split
    · rename_i hskip
      have hrq : r.queue ≠ q := fun h => hnp (h ▸ hskip.2)
      simp only [List.any_cons]
      rw [ih processed hnp]
      simp [hrq]
    · split
      · rename_i hm
        simp only [List.any_cons]
        rw [ih processed hnp]
        simp [hm]
      · split
        · rename_i hfull
          simp only [List.any_cons]
          rw [ih processed hnp]
          simp [hfull]
        · rename_i hskip hm hfull
          have hmt : filterMatchB r.target.subjectFilter s = true := by
            cases hb : filterMatchB r.target.subjectFilter s
            · exact absurd hb hm
            · rfl
          by_cases hrq : r.queue = q
          · simp [List.any_cons, hrq, hmt, hfull]
          · have hnp' : q ∉ (if r.queue ≠ [] then r.queue :: processed
                else processed) := by
              split
              · intro h
                rcases List.mem_cons.1 h with h | h
                · exact hrq h.symm
                · exact hnp h
              · exact hnp
            simp only [List.any_cons]
            rw [ih _ hnp']
            simp [hrq]

/-- With unbounded inboxes the delivery flags depend only on each record's
filter subject and queue name, not on the payload or on the inbox
contents. -/
theorem notifyGoT_flags_congr {α : Type} (s : Str) (p p' : α)
    (records records' : List (SubRecord α)) (processed : List Str)
    (hms : ∀ r ∈ records, r.maxsize = 0)
    (hms' : ∀ r ∈ records', r.maxsize = 0)
    (hshape : records.map (fun r => (r.target.subjectFilter, r.queue)) =
      records'.map (fun r => (r.target.subjectFilter, r.queue))) :
    (notifyGoT s p records processed).map Prod.snd =
      (notifyGoT s p' records' processed).map Prod.snd := by
  induction records generalizing records' processed with
  | nil =>
    cases records' with
    | nil => rfl
    | cons _ _ => simp at hshape
  | cons r rest ih =>
    cases records' with
    | nil => simp at hshape
    | cons r' rest' =>
      simp only [List.map_cons, List.cons.injEq, Prod.mk.injEq] at hshape
      obtain ⟨⟨hft, hqe⟩, hrest⟩ := hshape
      have hmsr : ∀ x ∈ rest, x.maxsize = 0 :=
        fun x hx => hms x (List.mem_cons_of_mem _ hx)
      have hmsr' : ∀ x ∈ rest', x.maxsize = 0 :=
        fun x hx => hms' x (List.mem_cons_of_mem _ hx)
      have hful : ¬ queueFull r := by
        simp [queueFull, hms r (List.mem_cons_self _ _)]
      have hful' : ¬ queueFull r' := by
        simp [queueFull, hms' r' (List.mem_cons_self _ _)]
      simp only [notifyGoT]
      by_cases hskip : r.queue ≠ [] ∧ r.queue ∈ processed
      · have hskip' : ¬¬(r'.queue ≠ [] ∧ r'.queue ∈ processed) := by
          rw [← hqe]
          exact not_not_intro hskip
        rw [if_pos hskip, if_pos (not_not.1 hskip')]
        simp only [List.map_cons]
        rw [ih rest' processed hmsr hmsr' hrest]
      · have hskip' : ¬(r'.queue ≠ [] ∧ r'.queue ∈ processed) := by
          rw [← hqe]
          exact hskip
        rw [if_neg hskip, if_neg hskip']
        by_cases hm : filterMatchB r.target.subjectFilter s = false
        · have hm' : filterMatchB r'.target.subjectFilter s = false := by
            rw [← hft]
            exact hm
          rw [if_pos hm, if_pos hm']
          simp only [List.map_cons]
          rw [ih rest' processed hmsr hmsr' hrest]
        · have hm' : ¬ filterMatchB r'.target.subjectFilter s = false := by
            rw [← hft]
            exact hm
          rw [if_neg hm, if_neg hm']
          rw [if_neg hful, if_neg hful']
          simp only [List.map_cons]
          rw [hqe, ih rest' _ hmsr hmsr' hrest]

/-- With unbounded inboxes (as the in-memory bus creates them), a record
receives the message exactly when it matches and, for grouped records, its
group is unsatisfied and no earlier-registered record of the same group
matches: queue-group arbitration always picks the earliest-registered
matching member. -/
theorem notifyGoT_earliest {α : Type} (s : Str) (p : α)
    (records : List (SubRecord α)) (processed : List Str)
    (hms : ∀ r ∈ records, r.maxsize = 0) (j : Nat) (r : SubRecord α)
    (rb : SubRecord α × Bool) (hr : records.get? j = some r)
    (hrb : (notifyGoT s p records processed).get? j = some rb) :
    rb.2 = true ↔
      (filterMatchB r.target.subjectFilter s = true ∧
        (r.queue = [] ∨ (r.queue ∉ processed ∧
          ∀ i ri, i < j → records.get? i = some ri → ri.queue = r.queue →
            filterMatchB ri.target.subjectFilter s = false))) := by
  induction records generalizing processed j with
  | nil => simp at hr
  | cons r0 rest ih =>
    have hful0 : ¬ queueFull r0 := by
      simp [queueFull, hms r0 (List.mem_cons_self _ _)]
    have hmsrest : ∀ x ∈ rest, x.maxsize = 0 :=
      fun x hx => hms x (List.mem_cons_of_mem _ hx)
    cases j with
    | zero =>
      rw [List.get?_cons_zero] at hr
      cases hr
      simp only [notifyGoT] at hrb
      by_cases hskip : r.queue ≠ [] ∧ r.queue ∈ processed
      · rw [if_pos hskip, List.get?_cons_zero] at hrb
        cases hrb
        constructor
        · intro h
          exact absurd h (by simp)
        · rintro ⟨hm, hcase | ⟨hnp, _⟩⟩
          · exact absurd hcase (by simpa using hskip.1)
          · exact absurd hskip.2 hnp
      · rw [if_neg hskip] at hrb
        by_cases hm : filterMatchB r.target.subjectFilter s = false
        · rw [if_pos hm, List.get?_cons_zero] at hrb
          cases hrb
          constructor
          · intro h
            exact absurd h (by simp)
          · rintro ⟨hmt, _⟩
            rw [hm] at hmt
            exact absurd hmt (by simp)
        · rw [if_neg hm, if_neg hful0, List.get?_cons_zero] at hrb
          cases hrb
          have hmt : filterMatchB r.target.subjectFilter s = true := by
            cases hb : filterMatchB r.target.subjectFilter s
            · exact absurd hb hm
            · rfl
          constructor
          · intro _
            refine ⟨hmt, ?_⟩
            by_cases hq0 : r.queue = []
            · exact Or.inl hq0
            · refine Or.inr ⟨fun hmem => hskip ⟨hq0, hmem⟩, ?_⟩
              intro i ri hi _ _
              exact absurd hi (Nat.not_lt_zero i)
          · intro _
            rfl
    | succ n =>
      rw [List.get?_cons_succ] at hr
      simp only [notifyGoT] at hrb
      by_cases hskip : r0.queue ≠ [] ∧ r0.queue ∈ processed
      · rw [if_pos hskip, List.get?_cons_succ] at hrb
        rw [ih processed hmsrest n hr hrb]
        constructor
        · rintro ⟨hm, hcase⟩
          refine ⟨hm, ?_⟩
          rcases hcase with hcase | ⟨hnpq, hall⟩
          · exact Or.inl hcase
          · refine Or.inr ⟨hnpq, ?_⟩
            intro i ri hi hget hq
            cases i with
            | zero =>
              rw [List.get?_cons_zero] at hget
              cases hget
              exact absurd (hq ▸ hskip.2) hnpq
            | succ m =>
              rw [List.get?_cons_succ] at hget
              exact hall m ri (Nat.lt_of_succ_lt_succ hi) hget hq
        · rintro ⟨hm, hcase⟩
          refine ⟨hm, ?_⟩
          rcases hcase with hcase | ⟨hnpq, hall⟩
          · exact Or.inl hcase
          · refine Or.inr ⟨hnpq, ?_⟩
            intro i ri hi hget hq
            exact hall (i + 1) ri (Nat.succ_lt_succ hi)
              (by rwa [List.get?_cons_succ]) hq
      · rw [if_neg hskip] at hrb
        by_cases hm0 : filterMatchB r0.target.subjectFilter s = false
        · rw [if_pos hm0, List.get?_cons_succ] at hrb
          rw [ih processed hmsrest n hr hrb]
          constructor
          · rintro ⟨hm, hcase⟩
            refine ⟨hm, ?_⟩
            rcases hcase with hcase | ⟨hnpq, hall⟩
            · exact Or.inl hcase
            · refine Or.inr ⟨hnpq, ?_⟩
              intro i ri hi hget hq
              cases i with
              | zero =>
                rw [List.get?_cons_zero] at hget
                cases hget
                exact hm0
              | succ m =>
                rw [List.get?_cons_succ] at hget
                exact hall m ri (Nat.lt_of_succ_lt_succ hi) hget hq
          · rintro ⟨hm, hcase⟩
            refine ⟨hm, ?_⟩
            rcases hcase with hcase | ⟨hnpq, hall⟩
            · exact Or.inl hcase
            · refine Or.inr ⟨hnpq, ?_⟩
              intro i ri hi hget hq
              exact hall (i + 1) ri (Nat.succ_lt_succ hi)
                (by rwa [List.get?_cons_succ]) hq
        · have hmt0 : filterMatchB r0.target.subjectFilter s = true := by
            cases hb : filterMatchB r0.target.subjectFilter s
            · exact absurd hb hm0
            · rfl
          rw [if_neg hm0, if_neg hful0, List.get?_cons_succ] at hrb
          rw [ih _ hmsrest n hr hrb]
          constructor
          · rintro ⟨hm, hcase⟩
            refine ⟨hm, ?_⟩
            rcases hcase with hcase | ⟨hnp', hall⟩
            · exact Or.inl hcase
            · by_cases hqnil : r.queue = []
              · exact Or.inl hqnil
              · have hqne0 : r.queue ≠ r0.queue := by
                  intro hq0
                  have hr0ne : r0.queue ≠ [] := by
                    rw [← hq0]
                    exact hqnil
                  apply hnp'
                  rw [if_pos hr0ne, ← hq0]
                  exact List.mem_cons_self _ _
                refine Or.inr ⟨?_, ?_⟩
                · intro hmem
                  apply hnp'
                  split
                  · exact List.mem_cons_of_mem _ hmem
                  · exact hmem
                · intro i ri hi hget hq
                  cases i with
                  | zero =>
                    rw [List.get?_cons_zero] at hget
                    cases hget
                    exact absurd hq.symm hqne0
                  | succ m =>
                    rw [List.get?_cons_succ] at hget
                    exact hall m ri (Nat.lt_of_succ_lt_succ hi) hget hq
          · rintro ⟨hm, hcase⟩
            refine ⟨hm, ?_⟩
            rcases hcase with hcase | ⟨hnp, hallfull⟩
            · exact Or.inl hcase
            · by_cases hqnil : r.queue = []
              · exact Or.inl hqnil
              · have hqne0 : r0.queue ≠ r.queue := by
                  intro hq0
                  have := hallfull 0 r0 (Nat.succ_pos n)
                    (by rw [List.get?_cons_zero]) hq0
                  rw [hmt0] at this
                  exact absurd this (by simp)
                refine Or.inr ⟨?_, ?_⟩
                · intro hmem
                  split at hmem
                  · rcases List.mem_cons.1 hmem with h | h
                    · exact hqne0 h.symm
                    · exact hnp h
                  · exact hnp hmem
                · intro i ri hi hget hq
                  exact hallfull (i + 1) ri (Nat.succ_lt_succ hi)
                    (by rwa [List.get?_cons_succ]) hq

/-! ## Rendering and extraction: claim-level lemmas -/

theorem render_subject_eq (tokens : List Str) (ph : List (Str × Nat))
    (context : List (Str × Str)) (hlt : ∀ p ∈ ph, p.2 < tokens.length) :
    render_subject tokens ph context =
      (if (renderLoopT context tokens ph).2.isEmpty then
        .ok (pyJoin matchSep (renderLoopT context tokens ph).1)
      else .error (.missingPlaceholders
        ((renderLoopT context tokens ph).2.map Prod.fst))) := by
  unfold render_subject
  rw [renderLoop_eq_total context tokens ph hlt]
  rfl

theorem pyLookup_of_nodup_eq_of_mem {β : Type} {l : List (Str × β)} {k : Str}
    {v w : β} (hn : (l.map Prod.fst).Nodup) (h : (k, v) ∈ l)
    (hl : pyLookup l k = some w) : v = w := by
  rw [mem_pyLookup hn h] at hl
  exact Option.some.inj hl

theorem roundtrip_values_spec (tokens : List Str) (ph : List (Str × Nat))
    (context : List (Str × Str))
    (hlt : ∀ p ∈ ph, p.2 < tokens.length)
    (hnp : (ph.map Prod.fst).Nodup) (hni : (ph.map Prod.snd).Nodup)
    (hcover : ∀ n, n ∈ ph.map Prod.fst → n ∈ context.map Prod.fst)
    (n : Str) (i : Nat) (hm : (n, i) ∈ ph) :
    ∃ v, pyLookup context n = some v ∧
      (renderLoopT context tokens ph).1.getD i [] = v := by
  obtain ⟨v, hv⟩ :=
    pyLookup_isSome_of_mem (hcover n (List.mem_map_of_mem Prod.fst hm))
  refine ⟨v, hv, ?_⟩
  have hget := renderLoopT_get_assigned context tokens ph hnp hni hlt n i hm v hv
  rw [List.getD_eq_getD_get?, hget]
  rfl

/-- C5, amended.  For every spec (well-formed placeholder map: indices in
range and distinct, names distinct) and every scope mapping whose keys are
exactly the placeholder names, provided no scope value contains the subject
separator, extracting the scope from the rendered subject returns the scope
(`S.extract(S.render(k)) == k` by Python dict equality). -/
theorem extract_render_roundtrip_of_sep_free (tokens : List Str)
    (ph : List (Str × Nat)) (context : List (Str × Str))
    (htne : tokens ≠ [])
    (htok : ∀ t ∈ tokens, matchSep ∉ t)
    (hlt : ∀ p ∈ ph, p.2 < tokens.length)
    (hnp : (ph.map Prod.fst).Nodup) (hni : (ph.map Prod.snd).Nodup)
    (hck : (context.map Prod.fst).Nodup)
    (hcover : ∀ n, n ∈ ph.map Prod.fst → n ∈ context.map Prod.fst)
    (hexact : ∀ n, n ∈ context.map Prod.fst → n ∈ ph.map Prod.fst)
    (hvals : ∀ p ∈ context, matchSep ∉ p.2) :
    render_extract_roundtrip tokens ph context = .ok true := by
  have hleft : (renderLoopT context tokens ph).2 = [] := by
    rw [renderLoopT_leftover _ _ _ hnp]
    refine List.filter_eq_nil_iff.2 ?_
    intro p hp
    simpa using hcover p.1 (List.mem_map_of_mem Prod.fst hp)
  have hlen : (renderLoopT context tokens ph).1.length = tokens.length :=
    renderLoopT_length context tokens ph
  have htsne : (renderLoopT context tokens ph).1 ≠ [] := by
    intro h
    rw [h] at hlen
    exact htne (List.eq_nil_of_length_eq_zero hlen.symm)
  have hfree : ∀ t ∈ (renderLoopT context tokens ph).1, matchSep ∉ t := by
    intro t ht
    rcases renderLoopT_mem context tokens ph t ht with h | ⟨pq, hpq, hv⟩
    · exact htok t h
    · rw [← hv]
      exact hvals pq hpq
  have hrender : render_subject tokens ph context =
      .ok (pyJoin matchSep (renderLoopT context tokens ph).1) := by
    rw [render_subject_eq _ _ _ hlt, hleft]
    rfl
  have hlt' : ∀ p ∈ ph.reverse, p.2 < (renderLoopT context tokens ph).1.length := by
    intro p hp
    rw [hlen]
    exact hlt p (List.mem_reverse.1 hp)
  have hextract : extract_subject_placeholders
      (pyJoin matchSep (renderLoopT context tokens ph).1) ph =
      .ok (ph.reverse.map
        (fun p => (p.1, (renderLoopT context tokens ph).1.getD p.2 []))) := by
    unfold extract_subject_placeholders
    rw [pySplit_pyJoin _ _ htsne hfree, extractLoop_ok _ _ _ hlt']
    rfl
  have hvnodup : ((ph.reverse.map
      (fun p => (p.1, (renderLoopT context tokens ph).1.getD p.2 []))).map
        Prod.fst).Nodup := by
    rw [List.map_map]
    have : (Prod.fst ∘ fun (p : Str × Nat) =>
        (p.1, (renderLoopT context tokens ph).1.getD p.2 [])) =
        fun p => p.1 := rfl
    rw [this, show (fun (p : Str × Nat) => p.1) = Prod.fst from rfl]
    rw [List.map_reverse]
    exact List.nodup_reverse.2 hnp
  have hdict : pyDictEq (ph.reverse.map
      (fun p => (p.1, (renderLoopT context tokens ph).1.getD p.2 [])))
      context = true := by
    unfold pyDictEq
    rw [Bool.and_eq_true, List.all_eq_true, List.all_eq_true]
    constructor
    · intro pv hpv
      rcases List.mem_map.1 hpv with ⟨q, hq, hqe⟩
      obtain ⟨n, i⟩ := q
      obtain ⟨v, hv, hg⟩ := roundtrip_values_spec tokens ph context hlt hnp hni
        hcover n i (List.mem_reverse.1 hq)
      rw [← hqe]
      show decide (pyLookup context n =
        some ((renderLoopT context tokens ph).1.getD i [])) = true
      rw [hg, hv]
      simp
    · intro q hq
      obtain ⟨n, v⟩ := q
      have hnm : n ∈ ph.map Prod.fst := hexact n (List.mem_map_of_mem Prod.fst hq)
      rcases List.mem_map.1 hnm with ⟨⟨n', i⟩, hpi, hfst⟩
      have hn' : n' = n := hfst
      subst hn'
      obtain ⟨v', hv', hg⟩ := roundtrip_values_spec tokens ph context hlt hnp hni
        hcover n' i hpi
      have hvv : v = v' := pyLookup_of_nodup_eq_of_mem hck hq hv'
      have hmemv : (n', (renderLoopT context tokens ph).1.getD i []) ∈
          ph.reverse.map (fun p =>
            (p.1, (renderLoopT context tokens ph).1.getD p.2 [])) :=
        List.mem_map_of_mem _ (List.mem_reverse.2 hpi)
      have hlook := mem_pyLookup hvnodup hmemv
      simp only [hlook, hg, hvv]
      simp
  unfold render_extract_roundtrip
  rw [hrender]
  show (do
    let values ← extract_subject_placeholders
      (pyJoin matchSep (renderLoopT context tokens ph).1) ph
    pure (pyDictEq values context)) = Except.ok true
  rw [hextract]
  show Except.ok (pyDictEq _ context) = Except.ok true
  rw [hdict]

/-! ## Claim theorems -/

/-- C9: for every subject template and scope mapping leaving one or more
placeholders unresolved, `render_subject` fails with a missing-placeholder
`KeyError` naming all of the missing placeholder keys (in placeholder
order), and `publish` and `request` on the in-memory bus surface this very
error to the caller. -/
theorem render_missing_placeholders_surfaced
    (tokens : List Str) (ph : List (Str × Nat)) (context : List (Str × Str))
    (hlt : ∀ p ∈ ph, p.2 < tokens.length)
    (hnp : (ph.map Prod.fst).Nodup)
    (hmiss : ph.filter (fun p => p.1 ∉ context.map Prod.fst) ≠ []) :
    render_subject tokens ph context = .error (.missingPlaceholders
      ((ph.filter (fun p => p.1 ∉ context.map Prod.fst)).map Prod.fst)) ∧
    ∀ (α : Type) (payload : α) (records : List (SubRecord α))
      (e : EventSpecModel), e.tokens = tokens → e.placeholders = ph →
      publish e context payload records = .error (.missingPlaceholders
        ((ph.filter (fun p => p.1 ∉ context.map Prod.fst)).map Prod.fst)) ∧
      request_construct e context = .error (.missingPlaceholders
        ((ph.filter (fun p => p.1 ∉ context.map Prod.fst)).map Prod.fst)) := by
  have hfe : (ph.filter (fun p => p.1 ∉ context.map Prod.fst)).isEmpty = false := by
    cases h : ph.filter (fun p => p.1 ∉ context.map Prod.fst) with
    | nil => exact absurd h hmiss
    | cons a l => rfl
  have hrender : render_subject tokens ph context = .error (.missingPlaceholders
      ((ph.filter (fun p => p.1 ∉ context.map Prod.fst)).map Prod.fst)) := by
    rw [render_subject_eq _ _ _ hlt, renderLoopT_leftover context tokens ph hnp,
      hfe]
    rfl
  refine ⟨hrender, ?_⟩
  intro α payload records e het hep
  constructor
  · unfold publish get_subject
    rw [het, hep, hrender]
    rfl
  · unfold request_construct get_subject
    rw [het, hep, hrender]
    rfl

/-- Witness for C9 at a concrete input: template `m.{id}.{v}` with an empty
scope names both missing keys, and publish surfaces the error. -/
theorem render_missing_placeholders_surfaced_witness :
    ((∀ p ∈ [(str "id", 1), (str "v", 2)], p.2 <
        ([str "m", matchOne, matchOne] : List Str).length) ∧
      ([(str "id", 1), (str "v", 2)].map
        (Prod.fst (β := Nat))).Nodup ∧
      [(str "id", 1), (str "v", 2)].filter
        (fun p => p.1 ∉ ([] : List (Str × Str)).map Prod.fst) ≠ []) ∧
    render_subject [str "m", matchOne, matchOne] [(str "id", 1), (str "v", 2)] []
      = .error (.missingPlaceholders [str "id", str "v"]) := by
  have h := render_missing_placeholders_surfaced
    [str "m", matchOne, matchOne] [(str "id", 1), (str "v", 2)] []
    (by decide) (by decide) (by decide)
  exact ⟨⟨by decide, by decide, by decide⟩, h.1⟩

/-- C5 (as stated) is false: for the spec with template `m.{id}` and the
scope `{id: "a.b"}` (a value containing the separator), rendering gives
subject `m.a.b` but extraction reads back `{id: "a"}`, so
`S.extract(S.render(k)) ≠ k`. -/
theorem extract_render_roundtrip_counterexample :
    render_subject [str "m", matchOne] [(str "id", 1)] [(str "id", str "a.b")]
      = .ok (str "m.a.b") ∧
    extract_subject_placeholders (str "m.a.b") [(str "id", 1)]
      = .ok [(str "id", str "a")] ∧
    str "a" ≠ str "a.b" ∧
    render_extract_roundtrip [str "m", matchOne] [(str "id", 1)]
      [(str "id", str "a.b")] = .ok false := by
  exact ⟨rfl, rfl, by decide, rfl⟩

/-- Witness for the amended C5 at a concrete input. -/
theorem extract_render_roundtrip_of_sep_free_witness :
    render_extract_roundtrip [str "m", matchOne] [(str "id", 1)]
      [(str "id", str "d1")] = .ok true :=
  extract_render_roundtrip_of_sep_free [str "m", matchOne] [(str "id", 1)]
    [(str "id", str "d1")] (by decide) (by decide) (by decide) (by decide)
    (by decide) (by decide) (by decide) (by decide) (by decide)

/-- C2 (as stated) is false on the code: `filter_match` accepts subject
`a` for filter `a.>` (the terminal `>` matches zero remaining tokens),
accepts subject `a.b.c.d` for filter `a.*.c` (extra subject tokens are
accepted once an inner `*` matched), and accepts subject `a` for filter
`a.*` (a final `*` also matches an absent token), each of which the claim
declares non-matching. -/
theorem filter_match_claim_counterexample :
    filter_match (str "a.>") (str "a") = .ok true ∧
    filter_match (str "a.*.c") (str "a.b.c.d") = .ok true ∧
    filter_match (str "a.*") (str "a") = .ok true := by
  exact ⟨rfl, rfl, rfl⟩

/-- C2, amended: for every non-empty filter and non-empty subject,
`filter_match` returns `True` iff the subject equals the filter, or the
left-to-right token scan accepts, as stated by `filterMatchSpec`: a filter
token equal to the subject token at its position advances; otherwise `>`
accepts the whole subject immediately (also when the subject has no token
at that position); otherwise `*` advances recording a wildcard use (also
when the subject has no token at that position); any other token rejects;
and reaching the filter's end accepts iff some `*` was used as a wildcard,
except that the subject is rejected when the filter's last token is `*` and
the subject has more tokens than the filter.  In particular filter `a.*.c`
matches `a.b.c`, `a.x.c` and also `a.b.c.d` but not `a.b`; filter `a.>`
matches `a`, `a.b` and `a.b.c`; filter `a.*` matches `a.b` and `a` but not
`a.b.c`; and filters `a.*.*` and `a.*.>` match `a` (the wildcards act even
past the subject's end). -/
theorem filter_match_wildcard_characterization (fil subj : Str)
    (hf : fil ≠ []) (hs : subj ≠ []) :
    (filter_match fil subj = .ok true ↔ filterMatchSpec fil subj) ∧
    filter_match (str "a.b") (str "a.b") = .ok true ∧
    filter_match (str "a.b") (str "a.a") = .ok false ∧
    filter_match (str "a.*.c") (str "a.b.c") = .ok true ∧
    filter_match (str "a.*.c") (str "a.x.c") = .ok true ∧
    filter_match (str "a.*.c") (str "a.b.c.d") = .ok true ∧
    filter_match (str "a.*.c") (str "a.b") = .ok false ∧
    filter_match (str "a.>") (str "a") = .ok true ∧
    filter_match (str "a.>") (str "a.b") = .ok true ∧
    filter_match (str "a.>") (str "a.b.c") = .ok true ∧
    filter_match (str "a.*") (str "a.b") = .ok true ∧
    filter_match (str "a.*") (str "a") = .ok true ∧
    filter_match (str "a.*") (str "a.b.c") = .ok false ∧
    filter_match (str "a.*.*") (str "a") = .ok true ∧
    filter_match (str "a.*.>") (str "a") = .ok true := by
  refine ⟨?_, rfl, rfl, rfl, rfl, rfl, rfl, rfl, rfl, rfl, rfl, rfl, rfl,
    rfl, rfl⟩
  rw [filter_match_eq_total fil subj hf hs]
  constructor
  · intro h
    exact (filterMatchB_iff_spec fil subj).1 (Except.ok.inj h)
  · intro h
    rw [(filterMatchB_iff_spec fil subj).2 h]

/-- Witness for the amended C2 at a concrete input. -/
theorem filter_match_wildcard_characterization_witness :
    (str "a.*.c" ≠ [] ∧ str "a.b.c.d" ≠ []) ∧
    ((filter_match (str "a.*.c") (str "a.b.c.d") = .ok true ↔
        filterMatchSpec (str "a.*.c") (str "a.b.c.d")) ∧
      filter_match (str "a.b") (str "a.b") = .ok true ∧
      filter_match (str "a.b") (str "a.a") = .ok false ∧
      filter_match (str "a.*.c") (str "a.b.c") = .ok true ∧
      filter_match (str "a.*.c") (str "a.x.c") = .ok true ∧
      filter_match (str "a.*.c") (str "a.b.c.d") = .ok true ∧
      filter_match (str "a.*.c") (str "a.b") = .ok false ∧
      filter_match (str "a.>") (str "a") = .ok true ∧
      filter_match (str "a.>") (str "a.b") = .ok true ∧
      filter_match (str "a.>") (str "a.b.c") = .ok true ∧
      filter_match (str "a.*") (str "a.b") = .ok true ∧
      filter_match (str "a.*") (str "a") = .ok true ∧
      filter_match (str "a.*") (str "a.b.c") = .ok false ∧
      filter_match (str "a.*.*") (str "a") = .ok true ∧
      filter_match (str "a.*.>") (str "a") = .ok true) :=
  ⟨⟨by decide, by decide⟩,
    filter_match_wildcard_characterization (str "a.*.c") (str "a.b.c.d")
      (by decide) (by decide)⟩

/-- C1: evaluating `Play._process_events_iterator` at the failing input.
Processing a delivered envelope whose handler raises `"BOOM"` only records
`event_processing_failed` and continues: the task's exception component is
`none` on every input (the `except` clause never re-raises, against the
inline `Log and exit on exception` comment), so the done-callback of
`_cancel_on_first_exception` never sees an exception (it does cancel when a
task fails), `errors()` stays empty, and `play_failed` is called zero
times — where the claim requires the task to exit with the error, the
cohort to be cancelled and `play_failed` to fire once. -/
theorem play_subscriber_handler_error_swallowed :
    process_events_iterator [Except.error "BOOM"] =
      ([InstrEvent.event_processing_failed "BOOM"], (none : Option String)) ∧
    (∀ (outcomes : List (Except String Unit)),
      (process_events_iterator outcomes).2 = none) ∧
    cancel_on_first_exception (TaskExit.failed "BOOM") = true ∧
    cancel_on_first_exception (TaskExit.completed : TaskExit String) = false ∧
    collect_exceptions ([none, none] : List (Option (TaskExit String))) = [] ∧
    play_failed_calls ([none, none] : List (Option (TaskExit String))) = 0 := by
  refine ⟨rfl, ?_, rfl, rfl, rfl, rfl⟩
  intro outcomes
  induction outcomes with
  | nil => rfl
  | cons o rest ih =>
    cases o with
    | ok _ => simpa [process_events_iterator] using ih
    | error e => simpa [process_events_iterator] using ih

/-- C6: evaluating `Play.start` at the failing input.  A Play constructed
with queue-group name `"g"` over a subscriber and a responder opens both
bus scopes with an empty queue-group name: `start` calls
`bus.subscribe(actor.event)` and `bus.serve(actor.event)` without its
`queue` option, against the constructor's documented behaviour. -/
theorem play_start_ignores_queue_option :
    eventSpecInit (str "test-event") (str "test") none = .ok testSpec ∧
    (play_start_records Nat (some (str "g"))
      [ActorModel.subscriber testSpec, ActorModel.responder testSpec]).map
        SubRecord.queue = [[], []] ∧
    str "g" ≠ [] := by
  exact ⟨rfl, rfl, by decide⟩

/-- C4: for a Responder run by a Play, a handler returning `r` makes the
runtime call `reply(r)` exactly once, and a concurrent request on the spec
resolves with `r` through the in-memory bus; a raising handler sends no
reply and the requester observes a timeout. -/
theorem responder_reply_exactly_once_or_timeout :
    ∀ (ρ : Type) (r : ρ) (e : String),
      (process_requests_iterator ([Except.ok r] : List (Except String ρ))).1
        = [r] ∧
      responder_request_flow ρ (.ok r) = .ok r ∧
      (process_requests_iterator ([Except.error e] : List (Except String ρ))).1
        = [] ∧
      responder_request_flow ρ (.error e) =
        .error (.valueError "TimeoutError") := by
  intro ρ r e
  exact ⟨rfl, rfl, rfl, rfl⟩

/-- C3: on the in-memory bus (whose subscription records all carry
unbounded inboxes), a publish delivers to every registered non-grouped
subscriber whose filter matches the subject, and within each queue-group at
most one member receives the message. -/
theorem inmemory_publish_delivery {α : Type} (s : Str) (p : α)
    (records : List (SubRecord α))
    (hs : s ≠ []) (hf : ∀ r ∈ records, r.target.subjectFilter ≠ [])
    (hub : ∀ r ∈ records, r.maxsize = 0) :
    notify_event_observers s p records = .ok (notifyGoT s p records []) ∧
    (∀ j r rb, records.get? j = some r →
      (notifyGoT s p records []).get? j = some rb →
      r.queue = [] → filterMatchB r.target.subjectFilter s = true →
      rb.2 = true) ∧
    (∀ q : Str, q ≠ [] → receivedInGroup q (notifyGoT s p records []) ≤ 1) := by
  refine ⟨notifyGo_eq_total s p records [] hs hf, ?_, ?_⟩
  · intro j r rb hr hrb hq hm
    rw [notifyGoT_ungrouped s p records [] j r rb hr hrb hq]
    refine ⟨hm, ?_⟩
    have hr0 : r.maxsize = 0 := hub r (List.get?_mem hr)
    simp [queueFull, hr0]
  · intro q hq
    have h := notifyGoT_group_count s p records [] q hq
    rwa [if_neg (List.not_mem_nil q)] at h

/-- Witness for C3: one ungrouped subscriber and two members of group `g`,
all matching subject `test`; the ungrouped one receives, the group
receives at most once. -/
theorem inmemory_publish_delivery_witness :
    (str "test" ≠ [] ∧
      (∀ r ∈ [subscribe_record Nat testSpec none,
        subscribe_record Nat testSpec (some (str "g")),
        subscribe_record Nat testSpec (some (str "g"))],
          r.target.subjectFilter ≠ []) ∧
      (∀ r ∈ [subscribe_record Nat testSpec none,
        subscribe_record Nat testSpec (some (str "g")),
        subscribe_record Nat testSpec (some (str "g"))], r.maxsize = 0)) ∧
    (notify_event_observers (str "test") 7
        [subscribe_record Nat testSpec none,
          subscribe_record Nat testSpec (some (str "g")),
          subscribe_record Nat testSpec (some (str "g"))] =
      .ok (notifyGoT (str "test") 7
        [subscribe_record Nat testSpec none,
          subscribe_record Nat testSpec (some (str "g")),
          subscribe_record Nat testSpec (some (str "g"))] []) ∧
      (∀ q : Str, q ≠ [] → receivedInGroup q (notifyGoT (str "test") 7
        [subscribe_record Nat testSpec none,
          subscribe_record Nat testSpec (some (str "g")),
          subscribe_record Nat testSpec (some (str "g"))] []) ≤ 1)) := by
  have h := inmemory_publish_delivery (str "test") 7
    [subscribe_record Nat testSpec none,
      subscribe_record Nat testSpec (some (str "g")),
      subscribe_record Nat testSpec (some (str "g"))]
    (by decide) (by decide) (by decide)
  exact ⟨⟨by decide, by decide, by decide⟩, h.1, h.2.2⟩

/-- C7 (as stated) is false: `EventSpec.__init__` compares only the NUMBER
of scope fields with the NUMBER of placeholders, so a spec whose scope
fields `{a, b}` are disjoint from the placeholder names `{c, d}` (equal
counts) constructs successfully even though the two name sets differ. -/
theorem eventSpecInit_set_mismatch_counterexample :
    mismatchSpecInit = .ok
      { name := str "evt", address := str "x.{c}.{d}",
        subjectFilter := str "x.*.*",
        tokens := [str "x", matchOne, matchOne],
        placeholders := [(str "c", 1), (str "d", 2)] } ∧
    str "a" ∉ ([(str "c", 1), (str "d", 2)].map Prod.fst) := by
  exact ⟨rfl, by decide⟩

/-- C7, amended: for a scope type with annotations, `EventSpec`
construction (with non-empty name and address and a normalizable address)
succeeds exactly when the NUMBER of scope fields equals the NUMBER of
placeholders, and raises a `ValueError` when the counts differ; the name
sets are not compared. -/
theorem eventSpecInit_count_validation (name address : Str) (ann : List Str)
    (subject : Str) (ph : List (Str × Nat))
    (hn : name ≠ []) (ha : address ≠ [])
    (hnorm : normalize_filter_subject address = .ok (subject, ph)) :
    (ann.length = ph.length →
      eventSpecInit name address (some ann) = .ok
        { name := name, address := address, subjectFilter := subject,
          tokens := pySplit matchSep subject, placeholders := ph }) ∧
    (ann.length ≠ ph.length →
      ∃ msg, eventSpecInit name address (some ann) =
        .error (.valueError msg)) := by
  have hred : eventSpecInit name address (some ann) =
      (if ann.length > ph.length then
        .error (.valueError
          "Not enough placeholders in address or unexpected scope variable")
      else if ann.length < ph.length then
        .error (.valueError
          "Too many placeholders in address or missing scope variables")
      else .ok
        { name := name, address := address, subjectFilter := subject,
          tokens := pySplit matchSep subject, placeholders := ph }) := by
    unfold eventSpecInit
    rw [if_neg hn, if_neg ha, hnorm]
    rfl
  constructor
  · intro hlen
    rw [hred, if_neg (by omega), if_neg (by omega)]
  · intro hlen
    rw [hred]
    rcases Nat.lt_or_ge ph.length ann.length with h | h
    · exact ⟨_, by rw [if_pos h]⟩
    · have hlt : ann.length < ph.length := by omega
      exact ⟨_, by rw [if_neg (by omega), if_pos hlt]⟩

/-- Witness for the amended C7: two scope fields and two placeholders
construct successfully; one scope field against two placeholders raises. -/
theorem eventSpecInit_count_validation_witness :
    (str "evt" ≠ [] ∧ str "x.{c}.{d}" ≠ [] ∧
      normalize_filter_subject (str "x.{c}.{d}") =
        .ok (str "x.*.*", [(str "c", 1), (str "d", 2)])) ∧
    eventSpecInit (str "evt") (str "x.{c}.{d}")
        (some [str "a", str "b"]) = .ok
      { name := str "evt", address := str "x.{c}.{d}",
        subjectFilter := str "x.*.*",
        tokens := pySplit matchSep (str "x.*.*"),
        placeholders := [(str "c", 1), (str "d", 2)] } ∧
    ∃ msg, eventSpecInit (str "evt") (str "x.{c}.{d}")
        (some [str "a"]) = .error (.valueError msg) := by
  have h1 := eventSpecInit_count_validation (str "evt") (str "x.{c}.{d}")
    [str "a", str "b"] (str "x.*.*") [(str "c", 1), (str "d", 2)]
    (by decide) (by decide) rfl
  have h2 := eventSpecInit_count_validation (str "evt") (str "x.{c}.{d}")
    [str "a"] (str "x.*.*") [(str "c", 1), (str "d", 2)]
    (by decide) (by decide) rfl
  exact ⟨⟨by decide, by decide, rfl⟩, h1.1 (by decide), h2.2 (by decide)⟩

/-- C8 (as stated) is false: the in-process subscription record is created
with an `asyncio.Queue()` of `maxsize` 0, an UNBOUNDED inbox — even with a
thousand queued messages `put_nowait` cannot fail. -/
theorem subscribe_inbox_unbounded_counterexample :
    (subscribe_record Nat testSpec none).maxsize = 0 ∧
    ¬ queueFull { subscribe_record Nat testSpec none with
        items := List.replicate 1000 ⟨str "test", 0⟩ } := by
  refine ⟨rfl, ?_⟩
  intro h
  exact absurd h.1 (by decide)

/-- C8, amended: in-process subscription records hold an unbounded inbox;
nevertheless, in the delivery loop a matching record whose inbox is full
never receives the message, and the drop does not mark the record's
queue-group as satisfied: the group receives exactly when SOME member
matches with room in its inbox. -/
theorem inmemory_full_inbox_drop_no_mark {α : Type} (s : Str) (p : α)
    (records : List (SubRecord α)) (q : Str)
    (hs : s ≠ []) (hf : ∀ r ∈ records, r.target.subjectFilter ≠ []) :
    notify_event_observers s p records = .ok (notifyGoT s p records []) ∧
    (∀ j r rb, records.get? j = some r →
      (notifyGoT s p records []).get? j = some rb →
      queueFull r → rb.2 = false) ∧
    ((notifyGoT s p records []).any
        (fun rb => rb.2 && decide (rb.1.queue = q)) =
      records.any (fun r => decide (r.queue = q) &&
        (filterMatchB r.target.subjectFilter s && !(decide (queueFull r))))) := by
  refine ⟨notifyGo_eq_total s p records [] hs hf, ?_,
    notifyGoT_group_exists s p records [] q (List.not_mem_nil q)⟩
  intro j r rb hr hrb hfull
  cases hb : rb.2
  · rfl
  · have hspec := notifyGoT_received_spec s p records [] j r rb hr hrb hb
    exact absurd hfull hspec.2.1

/-- Witness for the amended C8: a full bounded inbox in group `g` is
skipped and the later member of `g` with room still receives. -/
theorem inmemory_full_inbox_drop_no_mark_witness :
    (str "test" ≠ [] ∧
      (∀ r ∈ [{ subscribe_record Nat testSpec (some (str "g")) with
          maxsize := 1, items := [⟨str "test", 9⟩] },
        subscribe_record Nat testSpec (some (str "g"))],
          r.target.subjectFilter ≠ [])) ∧
    (∀ j r rb,
      ([{ subscribe_record Nat testSpec (some (str "g")) with
          maxsize := 1, items := [⟨str "test", 9⟩] },
        subscribe_record Nat testSpec (some (str "g"))] :
          List (SubRecord Nat)).get? j = some r →
      (notifyGoT (str "test") 7
        [{ subscribe_record Nat testSpec (some (str "g")) with
            maxsize := 1, items := [⟨str "test", 9⟩] },
          subscribe_record Nat testSpec (some (str "g"))] []).get? j
        = some rb →
      queueFull r → rb.2 = false) ∧
    ((notifyGoT (str "test") 7
        [{ subscribe_record Nat testSpec (some (str "g")) with
            maxsize := 1, items := [⟨str "test", 9⟩] },
          subscribe_record Nat testSpec (some (str "g"))] []).map Prod.snd
      = [false, true]) := by
  have h := inmemory_full_inbox_drop_no_mark (str "test") 7
    [{ subscribe_record Nat testSpec (some (str "g")) with
        maxsize := 1, items := [⟨str "test", 9⟩] },
      subscribe_record Nat testSpec (some (str "g"))] (str "g")
    (by decide) (by decide)
  exact ⟨⟨by decide, by decide⟩, h.2.1, by decide⟩

/-- C10: queue-group arbitration on the in-memory bus is deterministic —
over the records as the bus keeps them (unbounded inboxes), a second
publish of any message with the same subject delivers to exactly the same
positions — and within each group the earliest-registered matching member
is the one that receives. -/
theorem inmemory_group_arbitration_earliest {α : Type} (s : Str) (p p' : α)
    (records : List (SubRecord α))
    (hs : s ≠ []) (hf : ∀ r ∈ records, r.target.subjectFilter ≠ [])
    (hub : ∀ r ∈ records, r.maxsize = 0) :
    notify_event_observers s p records = .ok (notifyGoT s p records []) ∧
    ((notifyGoT s p' ((notifyGoT s p records []).map Prod.fst) []).map
        Prod.snd = (notifyGoT s p records []).map Prod.snd) ∧
    (∀ j r rb, records.get? j = some r →
      (notifyGoT s p records []).get? j = some rb →
      (rb.2 = true ↔ (filterMatchB r.target.subjectFilter s = true ∧
        (r.queue = [] ∨ ∀ i ri, i < j → records.get? i = some ri →
          ri.queue = r.queue →
            filterMatchB ri.target.subjectFilter s = false)))) := by
  have hshape3 := notifyGoT_map_shape s p records []
  have hub' : ∀ r' ∈ (notifyGoT s p records []).map Prod.fst,
      r'.maxsize = 0 := by
    intro r' hr'
    rcases List.mem_map.1 hr' with ⟨rb, hrb, hre⟩
    have htrip : (rb.1.target, rb.1.queue, rb.1.maxsize) ∈
        records.map (fun r => (r.target, r.queue, r.maxsize)) := by
      rw [← hshape3]
      exact List.mem_map_of_mem _ hrb
    rcases List.mem_map.1 htrip with ⟨r0, hr0, he⟩
    have hms : rb.1.maxsize = r0.maxsize :=
      (congrArg (fun t => t.2.2) he).symm
    rw [← hre, hms]
    exact hub r0 hr0
  have hpairs : ((notifyGoT s p records []).map Prod.fst).map
      (fun r => (r.target.subjectFilter, r.queue)) =
      records.map (fun r => (r.target.subjectFilter, r.queue)) := by
    have h1 : ((notifyGoT s p records []).map Prod.fst).map
        (fun r => (r.target, r.queue, r.maxsize)) =
        records.map (fun r => (r.target, r.queue, r.maxsize)) := by
      rw [List.map_map]
      exact hshape3
    have h2 := congrArg (List.map
      (fun t : EventSpecModel × Str × Nat => (t.1.subjectFilter, t.2.1))) h1
    simp only [List.map_map] at h2 ⊢
    exact h2
  refine ⟨notifyGo_eq_total s p records [] hs hf, ?_, ?_⟩
  · exact notifyGoT_flags_congr s p' p
      ((notifyGoT s p records []).map Prod.fst) records [] hub' hub hpairs
  · intro j r rb hr hrb
    rw [notifyGoT_earliest s p records [] hub j r rb hr hrb]
    constructor
    · rintro ⟨hm, hc | ⟨_, hall⟩⟩
      · exact ⟨hm, Or.inl hc⟩
      · exact ⟨hm, Or.inr hall⟩
    · rintro ⟨hm, hc | hall⟩
      · exact ⟨hm, Or.inl hc⟩
      · exact ⟨hm, Or.inr ⟨List.not_mem_nil _, hall⟩⟩

/-- Witness for C10: with an ungrouped record and two group-`g` records on
subject `test`, repeating the publish delivers to the same positions, and
the earliest group member receives. -/
theorem inmemory_group_arbitration_earliest_witness :
    (str "test" ≠ [] ∧
      (∀ r ∈ [subscribe_record Nat testSpec none,
        subscribe_record Nat testSpec (some (str "g")),
        subscribe_record Nat testSpec (some (str "g"))],
          r.target.subjectFilter ≠ []) ∧
      (∀ r ∈ [subscribe_record Nat testSpec none,
        subscribe_record Nat testSpec (some (str "g")),
        subscribe_record Nat testSpec (some (str "g"))], r.maxsize = 0)) ∧
    ((notifyGoT (str "test") 8
        ((notifyGoT (str "test") 7
          [subscribe_record Nat testSpec none,
            subscribe_record Nat testSpec (some (str "g")),
            subscribe_record Nat testSpec (some (str "g"))] []).map
              Prod.fst) []).map Prod.snd =
      (notifyGoT (str "test") 7
        [subscribe_record Nat testSpec none,
          subscribe_record Nat testSpec (some (str "g")),
          subscribe_record Nat testSpec (some (str "g"))] []).map Prod.snd) ∧
    ((notifyGoT (str "test") 7
        [subscribe_record Nat testSpec none,
          subscribe_record Nat testSpec (some (str "g")),
          subscribe_record Nat testSpec (some (str "g"))] []).map Prod.snd
      = [true, true, false]) := by
  have h := inmemory_group_arbitration_earliest (str "test") 7 8
    [subscribe_record Nat testSpec none,
      subscribe_record Nat testSpec (some (str "g")),
      subscribe_record Nat testSpec (some (str "g"))]
    (by decide) (by decide) (by decide)
  exact ⟨⟨by decide, by decide, by decide⟩, h.2.1, by decide⟩

end Pyhosting
